import Mathlib

/-!
Shallow embedding of the IRC state-reconciliation core in
src/porcupine/plugins/irc/gui.py (classes ChannelLikeView and IrcWidget).

Modelling conventions:
* Rendering-only state (tkinter Text widgets, scrolling, timestamps,
  listbox selection highlighting) is omitted; a message is the pair
  (sender, text) that add_message receives.
* An uncaught Python exception (failed assert, ValueError from
  list.index, KeyError from a dict access) is modelled by returning
  none; the corresponding state after a partial mutation is not
  observable through the queue-draining loop and is not modelled.
* The _channel_likes dict (insertion ordered in Python) is an
  association list; the _channel_selector listbox is a list of names in
  row order, where the row none displays the server entry; the selected
  channel-like is tracked by its name.
-/

namespace Porcupine

/-- ASCII lower-casing of one code point; str.casefold agrees with this on the
ASCII nicks and channel names this client handles. -/
def foldCode (n : Nat) : Nat := if 65 ≤ n ∧ n ≤ 90 then n + 32 else n

/-- The sort key produced by str.casefold, as a code-point list. -/
def casefoldKey (s : String) : List Nat := s.data.map (fun c => foldCode c.toNat)

/-- The code points of a string, the key compared by plain str comparison. -/
def codeKey (s : String) : List Nat := s.data.map Char.toNat

/-- Lexicographic less-or-equal on code-point lists: Python string comparison. -/
def lexLe : List Nat → List Nat → Bool
  | [], _ => true
  | _ :: _, [] => false
  | a :: as, b :: bs => if a < b then true else if b < a then false else lexLe as bs

/-- The comparator behind list.sort(key=str.casefold). -/
def casefoldLe (a b : String) : Prop := lexLe (casefoldKey a) (casefoldKey b) = true

instance : DecidableRel casefoldLe :=
  fun _ _ => inferInstanceAs (Decidable (_ = true))

/-- The comparator behind plain list.sort() on strings (code-point order). -/
def plainLe (a b : String) : Prop := lexLe (codeKey a) (codeKey b) = true

instance : DecidableRel plainLe :=
  fun _ _ => inferInstanceAs (Decidable (_ = true))

theorem lexLe_total : ∀ xs ys : List Nat, lexLe xs ys = true ∨ lexLe ys xs = true
  | [], _ => Or.inl rfl
  | _ :: _, [] => Or.inr rfl
  | a :: as, b :: bs => by
    rcases Nat.lt_trichotomy a b with h | h | h
    · left; simp [lexLe, h]
    · subst h
      rcases lexLe_total as bs with ih | ih
      · left; simp [lexLe, ih]
      · right; simp [lexLe, ih]
    · right; simp [lexLe, h]

theorem lexLe_trans : ∀ xs ys zs : List Nat,
    lexLe xs ys = true → lexLe ys zs = true → lexLe xs zs = true
  | [], _, _ => by intro _ _; rfl
  | _ :: _, [], _ => by intro h; simp [lexLe] at h
  | _ :: _, _ :: _, [] => by intro _ h; simp [lexLe] at h
  | a :: as, b :: bs, c :: cs => by
    intro h1 h2
    simp only [lexLe] at h1 h2 ⊢
    rcases Nat.lt_trichotomy a b with hab | hab | hab
    · rcases Nat.lt_trichotomy b c with hbc | hbc | hbc
      · simp [Nat.lt_trans hab hbc]
      · subst hbc; simp [hab]
      · simp [hbc, Nat.lt_asymm hbc] at h2
    · subst hab
      rcases Nat.lt_trichotomy a c with hbc | hbc | hbc
      · simp [hbc]
      · subst hbc
        simp [Nat.lt_irrefl] at h1 h2 ⊢
        exact lexLe_trans as bs cs h1 h2
      · simp [hbc, Nat.lt_asymm hbc] at h2
    · simp [hab, Nat.lt_asymm hab] at h1

instance : IsTotal String casefoldLe := ⟨fun _ _ => lexLe_total _ _⟩

instance : IsTrans String casefoldLe := ⟨fun _ _ _ h h2 => lexLe_trans _ _ _ h h2⟩

instance : IsTotal String plainLe := ⟨fun _ _ => lexLe_total _ _⟩

instance : IsTrans String plainLe := ⟨fun _ _ _ h h2 => lexLe_trans _ _ _ h h2⟩

/-- list.sort(key=str.casefold); timsort is stable, and insertion sort is the
stable reference sort. -/
def sortCasefold (l : List String) : List String := List.insertionSort casefoldLe l

/-- plain list.sort() on strings. -/
def sortPlain (l : List String) : List String := List.insertionSort plainLe l

/-- name.startswith, for the one-character channel marker. -/
def isChannelName (s : String) : Bool :=
  match s.data with
  | [] => false
  | c :: _ => c = '#'

/-- ChannelLikeView: the server pane (name = none), a channel (userlist present)
or a PM conversation. messages records the add_message calls. -/
structure ChannelLikeView where
  name : Option String
  userlist : Option (List String)
  messages : List (String × String)
deriving DecidableEq

/-- ChannelLikeView.__init__: a channel sorts its initial user list with
key=str.casefold; a non-channel has no user list. -/
def ChannelLikeView.make (name : Option String) (users : Option (List String)) :
    ChannelLikeView :=
  { name := name, userlist := users.map sortCasefold, messages := [] }

/-- add_message (scrolling and timestamp are rendering concerns). -/
def addMessage (v : ChannelLikeView) (sender text : String) : ChannelLikeView :=
  { v with messages := v.messages ++ [(sender, text)] }

/-- Appends Python's " (reason)" suffix when a reason is given. -/
def withReason (msg : String) : Option String → String
  | none => msg
  | some r => msg ++ " (" ++ r ++ ")"

/-- userlist[userlist.index(old)] = new: overwrite the first occurrence of old. -/
def replaceFirst (old new : String) : List String → List String
  | [] => []
  | x :: xs => if x = old then new :: xs else x :: replaceFirst old new xs

/-- on_join: assert the name is a channel, append the nick, re-sort with
key=str.casefold, and announce the join. -/
def on_join (v : ChannelLikeView) (nick : String) : Option ChannelLikeView :=
  match v.name, v.userlist with
  | some nm, some ul =>
    if isChannelName nm then
      some (addMessage { v with userlist := some (sortCasefold (ul ++ [nick])) }
        "*" (nick ++ " joined " ++ nm ++ "."))
    else none
  | _, _ => none

/-- on_part: userlist.index(nick) raises ValueError when nick is absent;
otherwise delete the first occurrence and announce the departure. -/
def on_part (v : ChannelLikeView) (nick : String) (reason : Option String) :
    Option ChannelLikeView :=
  match v.name, v.userlist with
  | some nm, some ul =>
    if isChannelName nm then
      if nick ∈ ul then
        some (addMessage { v with userlist := some (ul.erase nick) }
          "*" (withReason (nick ++ " left " ++ nm ++ ".") reason))
      else none
    else none
  | _, _ => none

/-- on_quit: a channel removes the nick from its user list (index raises when
absent); a PM conversation returns silently unless it is with that nick;
both surviving paths announce the quit. -/
def on_quit (v : ChannelLikeView) (nick : String) (reason : Option String) :
    Option ChannelLikeView :=
  match v.name with
  | none => none
  | some nm =>
    if isChannelName nm then
      match v.userlist with
      | none => none
      | some ul =>
        if nick ∈ ul then
          some (addMessage { v with userlist := some (ul.erase nick) }
            "*" (withReason (nick ++ " quit.") reason))
        else none
    else
      if nm ≠ nick then some v
      else some (addMessage v "*" (withReason (nick ++ " quit.") reason))

/-- _userlist_replace: find the index of old (ValueError when absent),
overwrite it with new, then re-sort with plain sort() — note: without the
casefold key used everywhere else. -/
def userlist_replace (v : ChannelLikeView) (old new : String) :
    Option ChannelLikeView :=
  match v.userlist with
  | none => none
  | some ul =>
    if old ∈ ul then
      some { v with userlist := some (sortPlain (replaceFirst old new ul)) }
    else none

/-- on_self_changed_nick: replace in the user list when this is a channel,
then announce the new nick unconditionally. -/
def on_self_changed_nick (v : ChannelLikeView) (old new : String) :
    Option ChannelLikeView :=
  (match v.userlist with
   | none => some v
   | some _ => userlist_replace v old new).map
    (fun w => addMessage w "*" ("You are now known as " ++ new ++ "."))

/-- on_user_changed_nick: nothing on the server pane; a PM announces only when
its name equals the new nick (it was renamed before this call); a channel
replaces and announces only when old is in its user list. -/
def on_user_changed_nick (v : ChannelLikeView) (old new : String) :
    Option ChannelLikeView :=
  match v.name with
  | none => some v
  | some nm =>
    match v.userlist with
    | none =>
      if isChannelName nm then none
      else if nm ≠ new then some v
      else some (addMessage v "*" (old ++ " is now known as " ++ new ++ "."))
    | some ul =>
      if isChannelName nm then
        if old ∈ ul then
          (userlist_replace v old new).map
            (fun w => addMessage w "*" (old ++ " is now known as " ++ new ++ "."))
        else some v
      else none

/-- A key in the _channel_likes dict: none is the server channel-like. -/
abbrev Name := Option String

/-- One entry of the insertion-ordered _channel_likes dict. -/
abbrev DictEntry := Name × ChannelLikeView

/-- dict[k] lookup: the first (and, keys being unique, only) entry for k. -/
def lookupKey (k : Name) : List DictEntry → Option ChannelLikeView
  | [] => none
  | (k', v) :: rest => if k' = k then some v else lookupKey k rest

/-- del dict[k]: drop the entry for k. -/
def eraseKey (k : Name) : List DictEntry → List DictEntry
  | [] => []
  | (k', v) :: rest => if k' = k then rest else (k', v) :: eraseKey k rest

/-- In-place mutation of the view stored at key k (dict order is unchanged). -/
def setView (k : Name) (v' : ChannelLikeView) : List DictEntry → List DictEntry
  | [] => []
  | (k', v) :: rest => if k' = k then (k', v') :: rest else (k', v) :: setView k v' rest

/-- Python list.index / tuple.index on listbox rows: the first row equal to x
(callers establish membership; on an absent x Python raises, and the callers
below guard with an explicit membership test). -/
def idxOf (x : Name) : List Name → Nat
  | [] => 0
  | y :: l => if y = x then 0 else idxOf x l + 1

/-- del on a row list by value: drop the first occurrence of x. -/
def eraseName (x : Name) : List Name → List Name
  | [] => []
  | y :: l => if y = x then l else y :: eraseName x l

/-- tkinter Listbox.insert(i, x): insert at row i (clamped at the end). -/
def insertAt : Nat → Name → List Name → List Name
  | 0, a, l => a :: l
  | _ + 1, a, [] => [a]
  | n + 1, a, b :: l => b :: insertAt n a l

/-- IrcWidget: the _channel_likes dict, the _channel_selector listbox rows
(row none displays "Server: host"), and the selected channel-like by name. -/
structure IrcWidget where
  channel_likes : List DictEntry
  selector : List Name
  current : Name
deriving DecidableEq

/-- The keys of the _channel_likes dict, in insertion order. -/
def IrcWidget.keys (w : IrcWidget) : List Name := w.channel_likes.map Prod.fst

/-- _select_index(i) followed by the <<ListboxSelect>> handler _on_selection:
the channel-like named on row i becomes current. -/
def select_index (w : IrcWidget) (i : Nat) : IrcWidget :=
  match w.selector.get? i with
  | some n => { w with current := n }
  | none => w

/-- add_channel_like: assert the name is free (and that the server entry is the
first ever created), append to the dict and the listbox, select the new row. -/
def add_channel_like (w : IrcWidget) (v : ChannelLikeView) : Option IrcWidget :=
  if (lookupKey v.name w.channel_likes).isSome then none
  else
    let w' : IrcWidget :=
      { channel_likes := w.channel_likes ++ [(v.name, v)],
        selector := w.selector ++ [v.name],
        current := w.current }
    if v.name = none ∧ w'.channel_likes.length ≠ 1 then none
    else some (select_index w' (w'.selector.length - 1))

/-- select_something_else: when the given channel-like is current, move the
selection to the next row, or the previous one when it sits on the last row. -/
def select_something_else (w : IrcWidget) (than : Name) : IrcWidget :=
  if than ≠ w.current then w
  else
    let index :=
      match w.current with
      | none => 0
      | some nm => idxOf (some nm) w.selector
    if index = w.channel_likes.length - 1 then select_index w (index - 1)
    else select_index w (index + 1)

/-- remove_channel_like: assert this is not the server, reselect when needed,
then delete the listbox row and the dict entry. -/
def remove_channel_like (w : IrcWidget) (name : Name) : Option IrcWidget :=
  match name with
  | none => none
  | some nm =>
    let w1 := select_something_else w (some nm)
    if (some nm) ∈ w1.selector then
      let i := idxOf (some nm) w1.selector
      if (lookupKey (some nm) w1.channel_likes).isSome then
        some { channel_likes := eraseKey (some nm) w1.channel_likes,
               selector := w1.selector.eraseIdx i,
               current := w1.current }
      else none
    else none

/-- rename_channel_like: remove a colliding entry at the new name, move the
dict entry to the new key (re-inserted at the end), update the view's name,
replace the listbox row in place and keep it selected when it was. -/
def rename_channel_like (w : IrcWidget) (old new : String) : Option IrcWidget :=
  (if (lookupKey (some new) w.channel_likes).isSome
   then remove_channel_like w (some new) else some w).bind fun w1 =>
  match lookupKey (some old) w1.channel_likes with
  | none => none
  | some v =>
    let dict' := eraseKey (some old) w1.channel_likes ++
      [(some new, { v with name := some new })]
    if (some old) ∈ w1.selector then
      let i := idxOf (some old) w1.selector
      let wasSel := w1.current = some old
      let w2 : IrcWidget :=
        { channel_likes := dict',
          selector := insertAt i (some new) (w1.selector.eraseIdx i),
          current := w1.current }
      some (if wasSel then select_index w2 i else w2)
    else none

/-- The events of backend.IrcEvent that the reconciliation claims concern. -/
inductive IrcEvent where
  | self_joined (channel : String) (nicklist : List String)
  | self_changed_nick (old new : String)
  | self_parted (channel : String)
  | self_quit
  | user_joined (nick channel : String)
  | user_changed_nick (old new : String)
  | user_parted (nick channel : String) (reason : Option String)
  | user_quit (nick : String) (reason : Option String)
deriving DecidableEq

/-- Run a per-view mutation over every dict entry in order; any uncaught
exception aborts the whole iteration. -/
def mapViewsM (f : ChannelLikeView → Option ChannelLikeView) :
    List DictEntry → Option (List DictEntry)
  | [] => some []
  | (k, v) :: rest =>
    match f v, mapViewsM f rest with
    | some v', some rest' => some ((k, v') :: rest')
    | _, _ => none

/-- The per-view body of the user_quit loop in handle_events: skip the server,
call on_quit when the nick names this PM or is on this channel. -/
def quit_step (nick : String) (reason : Option String) (v : ChannelLikeView) :
    Option ChannelLikeView :=
  match v.name with
  | none => some v
  | some nm =>
    match v.userlist with
    | some ul => if nick = nm ∨ nick ∈ ul then on_quit v nick reason else some v
    | none => if nick = nm then on_quit v nick reason else some v

/-- One dispatch of the if/elif chain in handle_events (self_quit is handled
by the drain loop itself before this is reached). -/
def apply_event (w : IrcWidget) : IrcEvent → Option IrcWidget
  | .self_joined ch nicklist =>
    add_channel_like w (ChannelLikeView.make (some ch) (some nicklist))
  | .self_changed_nick old new =>
    (mapViewsM (fun v => on_self_changed_nick v old new) w.channel_likes).map
      (fun l => { w with channel_likes := l })
  | .self_parted ch =>
    match lookupKey (some ch) w.channel_likes with
    | none => none
    | some v => remove_channel_like w v.name
  | .self_quit => some w
  | .user_joined nick ch =>
    match lookupKey (some ch) w.channel_likes with
    | none => none
    | some v =>
      (on_join v nick).map
        (fun v' => { w with channel_likes := setView (some ch) v' w.channel_likes })
  | .user_changed_nick old new =>
    (if (lookupKey (some old) w.channel_likes).isSome
     then rename_channel_like w old new else some w).bind fun w1 =>
    (mapViewsM (fun v => on_user_changed_nick v old new) w1.channel_likes).map
      (fun l => { w1 with channel_likes := l })
  | .user_parted nick ch reason =>
    match lookupKey (some ch) w.channel_likes with
    | none => none
    | some v =>
      (on_part v nick reason).map
        (fun v' => { w with channel_likes := setView (some ch) v' w.channel_likes })
  | .user_quit nick reason =>
    if isChannelName nick then none
    else
      (mapViewsM (quit_step nick reason) w.channel_likes).map
        (fun l => { w with channel_likes := l })

/-- Outcome of one activation of handle_events on the queued batch. -/
inductive DrainOutcome where
  | finished (w : IrcWidget)
  | quitted (w : IrcWidget) (rest : List IrcEvent)
  | errored (rest : List IrcEvent)
deriving DecidableEq

/-- Whether the activation reached the trailing self.after(100, handle_events)
call, re-arming the drain loop for the next batch. -/
def rearms : DrainOutcome → Bool
  | .finished _ => true
  | .quitted _ _ => false
  | .errored _ => false

/-- handle_events draining the queued batch: pop events in order; self_quit
fires the on_quit callback and returns without re-arming; an uncaught
exception aborts the loop; an empty queue re-arms via self.after.
The outcome carries the events still unapplied when the loop stopped. -/
def handle_events (w : IrcWidget) : List IrcEvent → DrainOutcome
  | [] => .finished w
  | e :: rest =>
    if e = .self_quit then .quitted w rest
    else
      match apply_event w e with
      | none => .errored rest
      | some w' => handle_events w' rest

/-- The user_joined/user_parted events that target one channel, as dispatched
by handle_events to that channel's view. -/
inductive ChanEvent where
  | join (nick : String)
  | part (nick : String) (reason : Option String)
deriving DecidableEq

/-- Dispatch of one user_joined or user_parted event to a channel view. -/
def applyChanEvent (v : ChannelLikeView) : ChanEvent → Option ChannelLikeView
  | .join n => on_join v n
  | .part n r => on_part v n r

/-- A sequence of user_joined/user_parted events applied to one channel view,
in queue order; an uncaught exception aborts the sequence. -/
def applyChanEvents (v : ChannelLikeView) : List ChanEvent → Option ChannelLikeView
  | [] => some v
  | e :: es => (applyChanEvent v e).bind (fun v' => applyChanEvents v' es)

/-- The set-theoretic join/part history: members joined and not subsequently
parted, starting from cur. -/
def specMembers (cur : List String) : List ChanEvent → List String
  | [] => cur
  | .join n :: es => specMembers (cur ++ [n]) es
  | .part n _ :: es => specMembers (cur.erase n) es

/-- A join/part sequence is well formed when every join brings a new nick and
every part removes a present one (the IRC protocol guarantees this). -/
def chanWF : List String → List ChanEvent → Prop
  | _, [] => True
  | cur, .join n :: es => n ∉ cur ∧ chanWF (cur ++ [n]) es
  | cur, .part n _ :: es => n ∈ cur ∧ chanWF (cur.erase n) es

/-- Basic shape of a dict entry as gui.py maintains it: the view's name is its
dict key, the server view has no user list, and a named view has a user list
exactly when its name is a channel name. -/
def viewOK : DictEntry → Bool
  | (k, v) =>
    (v.name == k) &&
    (match k with
     | none => v.userlist.isNone
     | some s => isChannelName s == v.userlist.isSome)

/-- What one view receives from the user-changed-nick fan-out: the server pane
is untouched; a PM whose name differs from the new nick is untouched and gets
no notice; a PM named like the new nick receives the rename notice; a channel
without old in its member list is untouched; a channel with old has it
replaced by new (one occurrence, list re-sorted with the plain code-point
comparator) and receives the rename notice. -/
def nickFanoutSpec (old new : String) (v v' : ChannelLikeView) : Prop :=
  (v.name = none → v' = v) ∧
  (∀ nm, v.name = some nm → v.userlist = none → nm ≠ new → v' = v) ∧
  (v.name = some new → v.userlist = none →
    v' = addMessage v "*" (old ++ " is now known as " ++ new ++ ".")) ∧
  (∀ ul, v.userlist = some ul → old ∉ ul → v' = v) ∧
  (∀ ul, v.userlist = some ul → old ∈ ul →
    v'.name = v.name ∧
    v'.messages = v.messages ++
      [("*", old ++ " is now known as " ++ new ++ ".")] ∧
    ∃ ul', v'.userlist = some ul' ∧ List.Perm ul' (new :: ul.erase old) ∧
      List.Sorted plainLe ul')

theorem lookupKey_mem {l : List DictEntry} {k : Name} {v : ChannelLikeView}
    (h : lookupKey k l = some v) : (k, v) ∈ l := by
  induction l with
  | nil => simp [lookupKey] at h
  | cons e rest ih =>
    obtain ⟨k', v'⟩ := e
    by_cases hk : k' = k
    · subst hk
      simp [lookupKey] at h
      subst h
      exact List.mem_cons_self _ _
    · simp only [lookupKey, if_neg hk] at h
      exact List.mem_cons_of_mem _ (ih h)

theorem lookupKey_eq_none {l : List DictEntry} {k : Name} :
    lookupKey k l = none ↔ k ∉ l.map Prod.fst := by
  induction l with
  | nil => simp [lookupKey]
  | cons e rest ih =>
    obtain ⟨k', v'⟩ := e
    by_cases hk : k' = k
    · subst hk; simp [lookupKey]
    · have hk2 : k ≠ k' := fun hh => hk hh.symm
      simp [lookupKey, hk, ih, hk2]

theorem lookupKey_isSome {l : List DictEntry} {k : Name} :
    (lookupKey k l).isSome = true ↔ k ∈ l.map Prod.fst := by
  cases h : lookupKey k l with
  | none => simp [lookupKey_eq_none.mp h]
  | some v =>
    simp only [Option.isSome_some, true_iff]
    exact List.mem_map.mpr ⟨(k, v), lookupKey_mem h, rfl⟩

theorem lookupKey_eraseKey_ne {l : List DictEntry} {k k' : Name} (h : k' ≠ k) :
    lookupKey k' (eraseKey k l) = lookupKey k' l := by
  induction l with
  | nil => simp [eraseKey]
  | cons e rest ih =>
    obtain ⟨k1, v1⟩ := e
    by_cases hk : k1 = k
    · subst hk
      have hk2 : k1 ≠ k' := fun hh => h (hh ▸ rfl)
      simp [eraseKey, lookupKey, hk2]
    · simp only [eraseKey, if_neg hk, lookupKey]
      by_cases hk' : k1 = k'
      · simp [hk']
      · simp [hk', ih]

theorem mem_of_mem_eraseName {a x : Name} : ∀ {l : List Name},
    a ∈ eraseName x l → a ∈ l
  | [], h => by simp [eraseName] at h
  | y :: l, h => by
    by_cases hy : y = x
    · simp only [eraseName, if_pos hy] at h
      exact List.mem_cons_of_mem _ h
    · simp only [eraseName, if_neg hy] at h
      rcases List.mem_cons.mp h with h1 | h1
      · exact h1 ▸ List.mem_cons_self _ _
      · exact List.mem_cons_of_mem _ (mem_of_mem_eraseName h1)

theorem mem_eraseName_of_ne {a x : Name} (hne : a ≠ x) : ∀ {l : List Name},
    a ∈ l → a ∈ eraseName x l
  | [], h => by simp at h
  | y :: l, h => by
    by_cases hy : y = x
    · subst hy
      simp only [eraseName, if_pos rfl]
      rcases List.mem_cons.mp h with h1 | h1
      · exact absurd h1 hne
      · exact h1
    · simp only [eraseName, if_neg hy]
      rcases List.mem_cons.mp h with h1 | h1
      · exact h1 ▸ List.mem_cons_self _ _
      · exact List.mem_cons_of_mem _ (mem_eraseName_of_ne hne h1)

theorem not_mem_eraseName_self {x : Name} : ∀ {l : List Name},
    l.Nodup → x ∉ eraseName x l
  | [], _ => by simp [eraseName]
  | y :: l, hnd => by
    have hhead : y ∉ l := (List.nodup_cons.mp hnd).1
    have htail : l.Nodup := (List.nodup_cons.mp hnd).2
    by_cases hy : y = x
    · subst hy
      simpa [eraseName] using hhead
    · simp only [eraseName, if_neg hy, List.mem_cons]
      push_neg
      exact ⟨fun hh => hy hh.symm, not_mem_eraseName_self htail⟩

theorem nodup_eraseName {x : Name} : ∀ {l : List Name},
    l.Nodup → (eraseName x l).Nodup
  | [], _ => by simp [eraseName]
  | y :: l, hnd => by
    have hhead : y ∉ l := (List.nodup_cons.mp hnd).1
    have htail : l.Nodup := (List.nodup_cons.mp hnd).2
    by_cases hy : y = x
    · simpa [eraseName, hy] using htail
    · simp only [eraseName, if_neg hy, List.nodup_cons]
      exact ⟨fun hh => hhead (mem_of_mem_eraseName hh), nodup_eraseName htail⟩

theorem perm_eraseName (x : Name) {l1 l2 : List Name} (h : List.Perm l1 l2) :
    List.Perm (eraseName x l1) (eraseName x l2) := by
  induction h with
  | nil => simp [eraseName]
  | cons y hsub ih =>
    by_cases hy : y = x
    · simpa [eraseName, hy] using hsub
    · simpa [eraseName, hy] using ih.cons y
  | swap a b l =>
    by_cases hb : b = x
    · by_cases ha : a = x
      · simp [eraseName, ha, hb]
      · simp [eraseName, ha, hb]
    · by_cases ha : a = x
      · simp [eraseName, ha, hb]
      · simp only [eraseName, if_neg ha, if_neg hb]
        exact List.Perm.swap a b _
  | trans _ _ ih1 ih2 => exact ih1.trans ih2

theorem keys_eraseKey {l : List DictEntry} {k : Name} :
    (eraseKey k l).map Prod.fst = eraseName k (l.map Prod.fst) := by
  induction l with
  | nil => simp [eraseKey, eraseName]
  | cons e rest ih =>
    obtain ⟨k1, v1⟩ := e
    by_cases hk : k1 = k
    · subst hk; simp [eraseKey, eraseName]
    · simp [eraseKey, hk, eraseName, ih]

theorem lookupKey_eraseKey_self {l : List DictEntry} {k : Name}
    (hnd : (l.map Prod.fst).Nodup) : lookupKey k (eraseKey k l) = none := by
  rw [lookupKey_eq_none, keys_eraseKey]
  exact not_mem_eraseName_self hnd

theorem eraseKey_subset {l : List DictEntry} {k : Name} {e : DictEntry}
    (h : e ∈ eraseKey k l) : e ∈ l := by
  induction l with
  | nil => simp [eraseKey] at h
  | cons e1 rest ih =>
    obtain ⟨k1, v1⟩ := e1
    by_cases hk : k1 = k
    · subst hk
      simp only [eraseKey, if_pos rfl] at h
      exact List.mem_cons_of_mem _ h
    · simp only [eraseKey, if_neg hk] at h
      rcases List.mem_cons.mp h with h | h
      · exact h ▸ List.mem_cons_self _ _
      · exact List.mem_cons_of_mem _ (ih h)

theorem lookupKey_append_right {l l2 : List DictEntry} {k : Name}
    (h : lookupKey k l = none) : lookupKey k (l ++ l2) = lookupKey k l2 := by
  induction l with
  | nil => simp
  | cons e rest ih =>
    obtain ⟨k1, v1⟩ := e
    by_cases hk : k1 = k
    · subst hk; simp [lookupKey] at h
    · simp only [lookupKey, if_neg hk] at h ⊢
      exact ih h

theorem lookupKey_append_left {l l2 : List DictEntry} {k : Name}
    {v : ChannelLikeView} (h : lookupKey k l = some v) :
    lookupKey k (l ++ l2) = some v := by
  induction l with
  | nil => simp [lookupKey] at h
  | cons e rest ih =>
    obtain ⟨k1, v1⟩ := e
    by_cases hk : k1 = k
    · subst hk
      simp only [lookupKey, if_pos rfl] at h ⊢
      exact h
    · simp only [lookupKey, if_neg hk] at h ⊢
      exact ih h

theorem mapViewsM_isSome {f : ChannelLikeView → Option ChannelLikeView} :
    ∀ {l : List DictEntry}, (∀ e ∈ l, (f e.2).isSome = true) →
      (mapViewsM f l).isSome = true
  | [], _ => rfl
  | (k, v) :: rest, h => by
    have h1 : (f v).isSome = true := h (k, v) (List.mem_cons_self _ _)
    have h2 := mapViewsM_isSome (f := f) (l := rest)
      (fun e he => h e (List.mem_cons_of_mem _ he))
    obtain ⟨v', hv'⟩ := Option.isSome_iff_exists.mp h1
    obtain ⟨rest', hrest'⟩ := Option.isSome_iff_exists.mp h2
    simp [mapViewsM, hv', hrest']

theorem mapViewsM_lookup {f : ChannelLikeView → Option ChannelLikeView} :
    ∀ {l l' : List DictEntry}, mapViewsM f l = some l' →
      ∀ k, lookupKey k l' = (lookupKey k l).bind f
  | [], l', h, k => by
    simp only [mapViewsM, Option.some.injEq] at h
    subst h
    simp [lookupKey]
  | (k1, v1) :: rest, l', h, k => by
    simp only [mapViewsM] at h
    cases hv : f v1 with
    | none => rw [hv] at h; exact absurd h (by simp)
    | some v1' =>
      rw [hv] at h
      cases hr : mapViewsM f rest with
      | none => rw [hr] at h; exact absurd h (by simp)
      | some rest' =>
        rw [hr] at h
        simp only [Option.some.injEq] at h
        subst h
        by_cases hk : k1 = k
        · subst hk; simp [lookupKey, hv]
        · simp only [lookupKey, if_neg hk]
          exact mapViewsM_lookup hr k

theorem mapViewsM_keys {f : ChannelLikeView → Option ChannelLikeView} :
    ∀ {l l' : List DictEntry}, mapViewsM f l = some l' →
      l'.map Prod.fst = l.map Prod.fst
  | [], l', h => by
    simp only [mapViewsM, Option.some.injEq] at h
    subst h; rfl
  | (k1, v1) :: rest, l', h => by
    simp only [mapViewsM] at h
    cases hv : f v1 with
    | none => rw [hv] at h; exact absurd h (by simp)
    | some v1' =>
      rw [hv] at h
      cases hr : mapViewsM f rest with
      | none => rw [hr] at h; exact absurd h (by simp)
      | some rest' =>
        rw [hr] at h
        simp only [Option.some.injEq] at h
        subst h
        simp [mapViewsM_keys hr]

theorem mapViewsM_mem {f : ChannelLikeView → Option ChannelLikeView} :
    ∀ {l l' : List DictEntry}, mapViewsM f l = some l' →
      ∀ e' ∈ l', ∃ e ∈ l, e'.1 = e.1 ∧ f e.2 = some e'.2
  | [], l', h => by
    simp only [mapViewsM, Option.some.injEq] at h
    subst h; simp
  | (k1, v1) :: rest, l', h => by
    simp only [mapViewsM] at h
    cases hv : f v1 with
    | none => rw [hv] at h; exact absurd h (by simp)
    | some v1' =>
      rw [hv] at h
      cases hr : mapViewsM f rest with
      | none => rw [hr] at h; exact absurd h (by simp)
      | some rest' =>
        rw [hr] at h
        simp only [Option.some.injEq] at h
        subst h
        intro e' he'
        rcases List.mem_cons.mp he' with h1 | h1
        · exact ⟨(k1, v1), List.mem_cons_self _ _, by simp [h1], by simp [h1, hv]⟩
        · obtain ⟨e, he, h2, h3⟩ := mapViewsM_mem hr e' h1
          exact ⟨e, List.mem_cons_of_mem _ he, h2, h3⟩

theorem insertAt_get : ∀ (l : List Name) (i : Nat) (x : Name), i ≤ l.length →
    (insertAt i x l).get? i = some x
  | _, 0, _, _ => rfl
  | [], i + 1, x, h => by simp at h
  | b :: l, i + 1, x, h => by
    simp only [insertAt, List.get?]
    exact insertAt_get l i x (Nat.le_of_succ_le_succ h)

theorem insertAt_perm : ∀ (l : List Name) (i : Nat) (x : Name),
    List.Perm (insertAt i x l) (x :: l)
  | _, 0, _ => List.Perm.refl _
  | [], _ + 1, _ => List.Perm.refl _
  | b :: l, i + 1, x =>
    ((insertAt_perm l i x).cons b).trans (List.Perm.swap x b l)

theorem idxOf_lt_length {x : Name} : ∀ {l : List Name}, x ∈ l →
    idxOf x l < l.length
  | [], h => by simp at h
  | y :: l, h => by
    by_cases hy : y = x
    · simp [idxOf, hy]
    · have hx : x ∈ l := by
        rcases List.mem_cons.mp h with h1 | h1
        · exact absurd h1.symm hy
        · exact h1
      simp only [idxOf, if_neg hy, List.length_cons]
      exact Nat.succ_lt_succ (idxOf_lt_length hx)

theorem get?_idxOf {x : Name} : ∀ {l : List Name}, x ∈ l →
    l.get? (idxOf x l) = some x
  | [], h => by simp at h
  | y :: l, h => by
    by_cases hy : y = x
    · simp [idxOf, hy]
    · have hx : x ∈ l := by
        rcases List.mem_cons.mp h with h1 | h1
        · exact absurd h1.symm hy
        · exact h1
      simp only [idxOf, if_neg hy, List.get?]
      exact get?_idxOf hx

theorem get_idxOf {x : Name} {l : List Name} (h : x ∈ l)
    (hlt : idxOf x l < l.length) : l.get ⟨idxOf x l, hlt⟩ = x := by
  have h1 := get?_idxOf h
  rw [List.get?_eq_get hlt] at h1
  exact Option.some.inj h1

theorem eraseIdx_idxOf {x : Name} : ∀ {l : List Name}, x ∈ l →
    l.eraseIdx (idxOf x l) = eraseName x l
  | [], h => by simp at h
  | y :: l, h => by
    by_cases hy : y = x
    · simp [idxOf, eraseName, hy, List.eraseIdx]
    · have hx : x ∈ l := by
        rcases List.mem_cons.mp h with h1 | h1
        · exact absurd h1.symm hy
        · exact h1
      simp only [idxOf, if_neg hy, eraseName, List.eraseIdx]
      rw [eraseIdx_idxOf hx]

theorem replaceFirst_perm {new : String} : ∀ {ul : List String} {old : String},
    old ∈ ul → List.Perm (replaceFirst old new ul) (new :: ul.erase old)
  | [], old, h => by simp at h
  | x :: xs, old, h => by
    by_cases hx : x = old
    · subst hx
      simp [replaceFirst, List.erase_cons]
    · have hmem : old ∈ xs := by
        rcases List.mem_cons.mp h with h1 | h1
        · exact absurd h1.symm hx
        · exact h1
      have hbe : (x == old) = false := beq_false_of_ne hx
      simp only [replaceFirst, if_neg hx, List.erase_cons, hbe]
      exact ((replaceFirst_perm hmem).cons x).trans
        (List.Perm.swap new x (xs.erase old))

theorem sorted_sortCasefold (l : List String) :
    List.Sorted casefoldLe (sortCasefold l) :=
  List.sorted_insertionSort casefoldLe l

theorem perm_sortCasefold (l : List String) : List.Perm (sortCasefold l) l :=
  List.perm_insertionSort casefoldLe l

theorem sorted_sortPlain (l : List String) : List.Sorted plainLe (sortPlain l) :=
  List.sorted_insertionSort plainLe l

theorem perm_sortPlain (l : List String) : List.Perm (sortPlain l) l :=
  List.perm_insertionSort plainLe l

theorem sorted_erase {l : List String} {a : String}
    (h : List.Sorted casefoldLe l) : List.Sorted casefoldLe (l.erase a) :=
  List.Pairwise.sublist (List.erase_sublist a l) h

theorem two_le_length_of_mem_ne {α : Type} {a b : α} {l : List α}
    (ha : a ∈ l) (hb : b ∈ l) (hne : a ≠ b) : 2 ≤ l.length := by
  cases l with
  | nil => simp at ha
  | cons x t =>
    cases t with
    | nil =>
      simp at ha hb
      exact absurd (ha.trans hb.symm) hne
    | cons y t2 => simp [List.length]

theorem select_index_state (w : IrcWidget) (i : Nat) :
    (select_index w i).channel_likes = w.channel_likes ∧
    (select_index w i).selector = w.selector := by
  unfold select_index
  cases w.selector.get? i <;> simp

theorem select_something_else_state (w : IrcWidget) (t : Name) :
    (select_something_else w t).channel_likes = w.channel_likes ∧
    (select_something_else w t).selector = w.selector := by
  unfold select_something_else
  by_cases h : t ≠ w.current
  · simp [h]
  · simp only [h, if_neg, if_false]
    split <;> exact select_index_state _ _

theorem select_something_else_of_ne (w : IrcWidget) (t : Name)
    (h : t ≠ w.current) : select_something_else w t = w := by
  simp [select_something_else, h]

theorem select_index_current_spec (w : IrcWidget) (j : Nat)
    (hj : j < w.selector.length) :
    (select_index w j).current = w.selector.get ⟨j, hj⟩ := by
  unfold select_index
  rw [List.get?_eq_get hj]

theorem select_something_else_current_mem (w : IrcWidget) (nm : String)
    (hkeys : w.keys.Nodup) (hperm : List.Perm w.selector w.keys)
    (hcur : w.current = some nm) (hmem : some nm ∈ w.keys)
    (hserver : none ∈ w.keys) :
    (select_something_else w (some nm)).current ∈ w.keys ∧
    (select_something_else w (some nm)).current ≠ some nm := by
  have hselnd : w.selector.Nodup := (List.Perm.nodup_iff hperm).mpr hkeys
  have hmemsel : (some nm) ∈ w.selector := (List.Perm.mem_iff hperm).mpr hmem
  have hlen : w.selector.length = w.channel_likes.length := by
    have h1 := List.Perm.length_eq hperm
    simpa [IrcWidget.keys] using h1
  have hi : idxOf (some nm) w.selector < w.selector.length :=
    idxOf_lt_length hmemsel
  have h2 : 2 ≤ w.selector.length :=
    two_le_length_of_mem_ne ((List.Perm.mem_iff hperm).mpr hserver) hmemsel
      (by simp)
  have key : ∀ j : Nat, j < w.selector.length →
      j ≠ idxOf (some nm) w.selector →
      (select_index w j).current ∈ w.keys ∧
      (select_index w j).current ≠ some nm := by
    intro j hj hne
    rw [select_index_current_spec w j hj]
    refine ⟨(List.Perm.mem_iff hperm).mp (w.selector.get_mem _ _), ?_⟩
    intro hEq
    have hgi : w.selector.get ⟨idxOf (some nm) w.selector, hi⟩ = some nm :=
      get_idxOf hmemsel hi
    have := (List.Nodup.get_inj_iff hselnd).mp (hEq.trans hgi.symm)
    exact hne (by simpa using this)
  have hunf : select_something_else w (some nm) =
      (if idxOf (some nm) w.selector = w.channel_likes.length - 1
       then select_index w (idxOf (some nm) w.selector - 1)
       else select_index w (idxOf (some nm) w.selector + 1)) := by
    simp [select_something_else, hcur]
  rw [hunf]
  by_cases hbr : idxOf (some nm) w.selector = w.channel_likes.length - 1
  · rw [if_pos hbr]
    have h1 : 1 ≤ idxOf (some nm) w.selector := by omega
    exact key _ (by omega) (by omega)
  · rw [if_neg hbr]
    exact key _ (by omega) (by omega)

theorem remove_spec (w : IrcWidget) (nm : String)
    (hkeys : w.keys.Nodup) (hperm : List.Perm w.selector w.keys)
    (hmem : some nm ∈ w.keys) :
    ∃ w', remove_channel_like w (some nm) = some w' ∧
      w'.channel_likes = eraseKey (some nm) w.channel_likes ∧
      w'.keys = eraseName (some nm) w.keys ∧
      List.Perm w'.selector w'.keys ∧
      (∀ k, k ≠ some nm →
        lookupKey k w'.channel_likes = lookupKey k w.channel_likes) ∧
      lookupKey (some nm) w'.channel_likes = none ∧
      (w.current ≠ some nm → w'.current = w.current) ∧
      (w.current = some nm → none ∈ w.keys →
        w'.current ∈ w.keys ∧ w'.current ≠ some nm) := by
  have hstate := select_something_else_state w (some nm)
  set w1 := select_something_else w (some nm) with hw1
  have hmemsel : (some nm) ∈ w.selector := (List.Perm.mem_iff hperm).mpr hmem
  have hmemsel1 : (some nm) ∈ w1.selector := hstate.2 ▸ hmemsel
  have hlook : (lookupKey (some nm) w1.channel_likes).isSome = true := by
    rw [hstate.1]
    exact lookupKey_isSome.mpr hmem
  have hres : remove_channel_like w (some nm) =
      some { channel_likes := eraseKey (some nm) w1.channel_likes,
             selector := w1.selector.eraseIdx (idxOf (some nm) w1.selector),
             current := w1.current } := by
    rw [remove_channel_like, ← hw1, if_pos hmemsel1, if_pos hlook]
  refine ⟨_, hres, ?_, ?_, ?_, ?_, ?_, ?_, ?_⟩
  · simp [hstate.1]
  · show (eraseKey (some nm) w1.channel_likes).map Prod.fst = _
    rw [hstate.1, keys_eraseKey]
    rfl
  · show List.Perm (w1.selector.eraseIdx (idxOf (some nm) w1.selector))
      ((eraseKey (some nm) w1.channel_likes).map Prod.fst)
    rw [eraseIdx_idxOf hmemsel1, hstate.1, hstate.2, keys_eraseKey]
    exact perm_eraseName _ hperm
  · intro k hk
    show lookupKey k (eraseKey (some nm) w1.channel_likes) = _
    rw [hstate.1, lookupKey_eraseKey_ne hk]
  · show lookupKey (some nm) (eraseKey (some nm) w1.channel_likes) = none
    rw [hstate.1]
    exact lookupKey_eraseKey_self hkeys
  · intro hne
    show w1.current = w.current
    rw [hw1, select_something_else_of_ne w _ (fun h => hne h.symm)]
  · intro hcur hserver
    exact select_something_else_current_mem w nm hkeys hperm hcur hmem hserver

theorem lookupKey_append_single_ne {l : List DictEntry} {kn k : Name}
    {vn : ChannelLikeView} (h : k ≠ kn) :
    lookupKey k (l ++ [(kn, vn)]) = lookupKey k l := by
  cases hl : lookupKey k l with
  | some v => exact lookupKey_append_left hl
  | none =>
    rw [lookupKey_append_right hl]
    have h2 : kn ≠ k := fun hh => h hh.symm
    simp [lookupKey, h2]

theorem rename_spec (w : IrcWidget) (old new : String) (vOld : ChannelLikeView)
    (hkeys : w.keys.Nodup) (hperm : List.Perm w.selector w.keys)
    (hold : lookupKey (some old) w.channel_likes = some vOld)
    (hne : old ≠ new) :
    ∃ w', rename_channel_like w old new = some w' ∧
      lookupKey (some new) w'.channel_likes =
        some { vOld with name := some new } ∧
      lookupKey (some old) w'.channel_likes = none ∧
      (∀ k, k ≠ some old → k ≠ some new →
        lookupKey k w'.channel_likes = lookupKey k w.channel_likes) ∧
      (∀ e ∈ w'.channel_likes, e ∈ w.channel_likes ∨
        e = (some new, { vOld with name := some new })) ∧
      (w.current = some old → w'.current = some new) := by
  have hnamene : (some old : Name) ≠ some new := fun h => hne (Option.some.inj h)
  have hnamene2 : (some new : Name) ≠ some old :=
    fun h => hne (Option.some.inj h).symm
  -- the collision step
  obtain ⟨w1, hstep, hP1, hP2, hP3, hP4, hP5, hP6, hP7⟩ :
      ∃ w1, (if (lookupKey (some new) w.channel_likes).isSome
             then remove_channel_like w (some new) else some w) = some w1 ∧
        lookupKey (some old) w1.channel_likes = some vOld ∧
        lookupKey (some new) w1.channel_likes = none ∧
        w1.keys.Nodup ∧
        List.Perm w1.selector w1.keys ∧
        (∀ k, k ≠ some new →
          lookupKey k w1.channel_likes = lookupKey k w.channel_likes) ∧
        (∀ e ∈ w1.channel_likes, e ∈ w.channel_likes) ∧
        (w.current = some old → w1.current = some old) := by
    cases hnew : lookupKey (some new) w.channel_likes with
    | none =>
      refine ⟨w, by simp [hnew], hold, hnew, hkeys, hperm,
        fun k _ => rfl, fun e he => he, fun h => h⟩
    | some vNew =>
      have hmemnew : (some new : Name) ∈ w.keys :=
        lookupKey_isSome.mp (by simp [hnew])
      obtain ⟨w1, hrem, hchan, hkeys1, hperm1, hlook1, hlooknew, hcur1, _⟩ :=
        remove_spec w new hkeys hperm hmemnew
      refine ⟨w1, by simp [hnew, hrem], ?_, hlooknew, ?_, hperm1, ?_, ?_, ?_⟩
      · rw [hlook1 (some old) hnamene]; exact hold
      · rw [hkeys1]; exact nodup_eraseName hkeys
      · exact hlook1
      · intro e he
        rw [hchan] at he
        exact eraseKey_subset he
      · intro h
        rw [hcur1 (h ▸ hnamene)]; exact h
  have hselold : (some old) ∈ w1.selector :=
    (List.Perm.mem_iff hP4).mpr (lookupKey_isSome.mp (by simp [hP1]))
  have hres : rename_channel_like w old new =
      some (if w1.current = some old
            then select_index
              { channel_likes := eraseKey (some old) w1.channel_likes ++
                  [(some new, { vOld with name := some new })],
                selector := insertAt (idxOf (some old) w1.selector) (some new)
                  (w1.selector.eraseIdx (idxOf (some old) w1.selector)),
                current := w1.current } (idxOf (some old) w1.selector)
            else
              { channel_likes := eraseKey (some old) w1.channel_likes ++
                  [(some new, { vOld with name := some new })],
                selector := insertAt (idxOf (some old) w1.selector) (some new)
                  (w1.selector.eraseIdx (idxOf (some old) w1.selector)),
                current := w1.current }) := by
    rw [rename_channel_like, hstep]
    simp only [Option.some_bind, hP1]
    rw [if_pos hselold]
  set i := idxOf (some old) w1.selector with hidef
  set w2 : IrcWidget :=
    { channel_likes := eraseKey (some old) w1.channel_likes ++
        [(some new, { vOld with name := some new })],
      selector := insertAt i (some new) (w1.selector.eraseIdx i),
      current := w1.current } with hw2
  have hchan2 : ∀ b : Prop, ∀ inst : Decidable b,
      (if b then select_index w2 i else w2).channel_likes = w2.channel_likes := by
    intro b inst
    by_cases hb : b
    · rw [if_pos hb]; exact (select_index_state w2 i).1
    · rw [if_neg hb]
  refine ⟨_, hres, ?_, ?_, ?_, ?_, ?_⟩
  · rw [hchan2]
    show lookupKey (some new) w2.channel_likes = _
    rw [hw2]
    show lookupKey (some new)
      (eraseKey (some old) w1.channel_likes ++ [(some new, _)]) = _
    rw [lookupKey_append_right]
    · simp [lookupKey]
    · rw [lookupKey_eraseKey_ne hnamene2]; exact hP2
  · rw [hchan2]
    show lookupKey (some old) w2.channel_likes = none
    rw [hw2]
    show lookupKey (some old)
      (eraseKey (some old) w1.channel_likes ++ [(some new, _)]) = none
    rw [lookupKey_append_single_ne hnamene, lookupKey_eraseKey_self hP3]
  · intro k hko hkn
    rw [hchan2]
    show lookupKey k w2.channel_likes = _
    rw [hw2]
    show lookupKey k
      (eraseKey (some old) w1.channel_likes ++ [(some new, _)]) = _
    rw [lookupKey_append_single_ne hkn, lookupKey_eraseKey_ne hko]
    exact hP5 k hkn
  · intro e he
    rw [hchan2] at he
    have he2 : e ∈ w2.channel_likes := he
    rw [hw2] at he2
    rcases List.mem_append.mp he2 with h1 | h1
    · exact Or.inl (hP6 e (eraseKey_subset h1))
    · simp at h1
      exact Or.inr h1
  · intro hc
    have hc1 := hP7 hc
    rw [if_pos hc1]
    have hi : i < w1.selector.length := idxOf_lt_length hselold
    have hile : i ≤ (w1.selector.eraseIdx i).length := by
      rw [List.length_eraseIdx_of_lt hi]
      omega
    have hget := insertAt_get (w1.selector.eraseIdx i) i (some new) hile
    show (select_index w2 i).current = some new
    rw [select_index]
    have : w2.selector.get? i = some (some new) := hget
    rw [this]

theorem on_self_changed_nick_none {v : ChannelLikeView} {old new : String}
    (h : v.userlist = none) :
    on_self_changed_nick v old new =
      some (addMessage v "*" ("You are now known as " ++ new ++ ".")) := by
  simp [on_self_changed_nick, h]

theorem on_self_changed_nick_chan {v : ChannelLikeView} {old new : String}
    {ul : List String} (h : v.userlist = some ul) (hmem : old ∈ ul) :
    on_self_changed_nick v old new =
      some (addMessage
        { v with userlist := some (sortPlain (replaceFirst old new ul)) }
        "*" ("You are now known as " ++ new ++ ".")) := by
  simp [on_self_changed_nick, userlist_replace, h, hmem]

/-- C9: the spec's fan-out for self-changed-nick holds only when old is a
member of every channel's user list: then each channel's list has old
replaced by new and re-sorted (by the code-point comparator of
_userlist_replace), and the "You are now known as" notice is appended to
every entity in the directory unconditionally, the server and PM entities
included. -/
theorem C9_self_changed_nick_fanout (w : IrcWidget) (old new : String)
    (hmem : ∀ e ∈ w.channel_likes, old ∈ e.2.userlist.getD [old]) :
    ∃ w', apply_event w (.self_changed_nick old new) = some w' ∧
      w'.keys = w.keys ∧ w'.selector = w.selector ∧ w'.current = w.current ∧
      ∀ k v, lookupKey k w.channel_likes = some v →
        ∃ v', lookupKey k w'.channel_likes = some v' ∧
          v'.name = v.name ∧
          v'.messages = v.messages ++
            [("*", "You are now known as " ++ new ++ ".")] ∧
          (v.userlist = none → v'.userlist = none) ∧
          (∀ ul, v.userlist = some ul →
            ∃ ul', v'.userlist = some ul' ∧
              List.Perm ul' (new :: ul.erase old) ∧
              List.Sorted plainLe ul') := by
  have hsucc : ∀ e ∈ w.channel_likes,
      ((fun v => on_self_changed_nick v old new) e.2).isSome = true := by
    intro e he
    cases hul : e.2.userlist with
    | none => simp [on_self_changed_nick_none hul]
    | some ul =>
      have := hmem e he
      rw [hul] at this
      simp [on_self_changed_nick_chan hul this]
  obtain ⟨l', hl'⟩ := Option.isSome_iff_exists.mp
    (mapViewsM_isSome (f := fun v => on_self_changed_nick v old new) hsucc)
  refine ⟨{ w with channel_likes := l' }, ?_, mapViewsM_keys hl', rfl, rfl, ?_⟩
  · show (mapViewsM _ w.channel_likes).map _ = _
    rw [hl']
    rfl
  · intro k v hv
    have hlk : lookupKey k l' = (lookupKey k w.channel_likes).bind
      (fun v => on_self_changed_nick v old new) := mapViewsM_lookup hl' k
    rw [hv, Option.some_bind] at hlk
    cases hul : v.userlist with
    | none =>
      rw [on_self_changed_nick_none hul] at hlk
      exact ⟨_, hlk, rfl, rfl, fun _ => hul, fun ul h => nomatch h⟩
    | some ul =>
      have hin : old ∈ ul := by
        have := hmem (k, v) (lookupKey_mem hv)
        rwa [hul, Option.getD_some] at this
      rw [on_self_changed_nick_chan hul hin] at hlk
      refine ⟨_, hlk, rfl, rfl, ?_, ?_⟩
      · intro h
        exact absurd h (by simp)
      · intro ul0 h
        cases Option.some.inj h
        exact ⟨_, rfl,
          (perm_sortPlain _).trans (replaceFirst_perm hin), sorted_sortPlain _⟩

/-- C9, failure part: on a directory holding a channel whose member list does
not contain old, the self-changed-nick fan-out raises an uncaught ValueError
inside _userlist_replace, so no entity receives the claimed notice. -/
theorem C9_counterexample :
    apply_event
      (⟨[(none, ⟨none, none, []⟩),
         (some "#c", ⟨some "#c", some ["bob"], []⟩)],
        [none, some "#c"], some "#c"⟩ : IrcWidget)
      (.self_changed_nick "alice" "zed") = none := by decide

/-- Witness for C9 at a concrete directory: a server pane, a channel with
members alice and Bob, and a PM with dave. -/
theorem C9_witness :
    (∀ e ∈ ([(none, ⟨none, none, []⟩),
         (some "#c", ⟨some "#c", some ["alice", "Bob"], []⟩),
         (some "dave", ⟨some "dave", none, []⟩)] : List DictEntry),
       "alice" ∈ e.2.userlist.getD ["alice"]) ∧
    (∃ w', apply_event
      (⟨[(none, ⟨none, none, []⟩),
         (some "#c", ⟨some "#c", some ["alice", "Bob"], []⟩),
         (some "dave", ⟨some "dave", none, []⟩)],
        [none, some "#c", some "dave"], some "#c"⟩ : IrcWidget)
      (.self_changed_nick "alice" "zed") = some w' ∧
      w'.keys = [none, some "#c", some "dave"] ∧
      w'.selector = [none, some "#c", some "dave"] ∧
      w'.current = some "#c" ∧
      ∀ k v, lookupKey k (⟨[(none, ⟨none, none, []⟩),
         (some "#c", ⟨some "#c", some ["alice", "Bob"], []⟩),
         (some "dave", ⟨some "dave", none, []⟩)],
        [none, some "#c", some "dave"], some "#c"⟩ : IrcWidget).channel_likes
          = some v →
        ∃ v', lookupKey k w'.channel_likes = some v' ∧
          v'.name = v.name ∧
          v'.messages = v.messages ++
            [("*", "You are now known as " ++ "zed" ++ ".")] ∧
          (v.userlist = none → v'.userlist = none) ∧
          (∀ ul, v.userlist = some ul →
            ∃ ul', v'.userlist = some ul' ∧
              List.Perm ul' ("zed" :: ul.erase "alice") ∧
              List.Sorted plainLe ul')) :=
  ⟨by decide, C9_self_changed_nick_fanout _ "alice" "zed" (by decide)⟩

theorem quit_step_server {nick : String} {r : Option String}
    {v : ChannelLikeView} (h : v.name = none) : quit_step nick r v = some v := by
  simp [quit_step, h]

theorem quit_step_pm_hit {nick nm : String} {r : Option String}
    {v : ChannelLikeView} (hn : v.name = some nm) (hul : v.userlist = none)
    (hch : isChannelName nm = false) (heq : nick = nm) :
    quit_step nick r v =
      some (addMessage v "*" (withReason (nick ++ " quit.") r)) := by
  subst heq
  simp [quit_step, hn, hul, on_quit, hch]

theorem quit_step_pm_miss {nick nm : String} {r : Option String}
    {v : ChannelLikeView} (hn : v.name = some nm) (hul : v.userlist = none)
    (hne : nick ≠ nm) : quit_step nick r v = some v := by
  simp [quit_step, hn, hul, hne]

theorem quit_step_chan_hit {nick nm : String} {r : Option String}
    {v : ChannelLikeView} {ul : List String} (hn : v.name = some nm)
    (hul : v.userlist = some ul) (hch : isChannelName nm = true)
    (hmem : nick ∈ ul) :
    quit_step nick r v =
      some (addMessage { v with userlist := some (ul.erase nick) }
        "*" (withReason (nick ++ " quit.") r)) := by
  simp [quit_step, hn, hul, hmem, on_quit, hch]

theorem quit_step_chan_miss {nick nm : String} {r : Option String}
    {v : ChannelLikeView} {ul : List String} (hn : v.name = some nm)
    (hul : v.userlist = some ul) (hne : nick ≠ nm) (hmem : nick ∉ ul) :
    quit_step nick r v = some v := by
  simp [quit_step, hn, hul, hne, hmem]

theorem quit_step_twice (nick : String) (r1 r2 : Option String) (k : Name)
    (v : ChannelLikeView) (hOK : viewOK (k, v) = true)
    (hnd : (v.userlist.getD []).Nodup) (hnick : isChannelName nick = false) :
    ∃ v1 v2, quit_step nick r1 v = some v1 ∧ quit_step nick r2 v1 = some v2 ∧
      ((v.name = none ∨ (v.userlist = none ∧ v.name ≠ some nick)) →
        v1 = v ∧ v2 = v) ∧
      (v.name = some nick →
        v1 = addMessage v "*" (withReason (nick ++ " quit.") r1) ∧
        v2 = addMessage v1 "*" (withReason (nick ++ " quit.") r2)) ∧
      (∀ ul, v.userlist = some ul → nick ∈ ul →
        v1 = addMessage { v with userlist := some (ul.erase nick) }
          "*" (withReason (nick ++ " quit.") r1) ∧
        v2 = v1) ∧
      (∀ ul, v.userlist = some ul → nick ∉ ul → v1 = v ∧ v2 = v) := by
  cases k with
  | none =>
    simp only [viewOK, Bool.and_eq_true, beq_iff_eq, Option.isNone_iff_eq_none]
      at hOK
    obtain ⟨hname, husl⟩ := hOK
    refine ⟨v, v, quit_step_server hname, quit_step_server hname,
      fun _ => ⟨rfl, rfl⟩, ?_, ?_, ?_⟩
    · intro h; rw [hname] at h; cases h
    · intro ul hul; rw [husl] at hul; cases hul
    · intro ul hul; rw [husl] at hul; cases hul
  | some s =>
    simp only [viewOK, Bool.and_eq_true, beq_iff_eq] at hOK
    obtain ⟨hname, hshape⟩ := hOK
    cases husl : v.userlist with
    | none =>
      have hch : isChannelName s = false := by
        rw [husl] at hshape; simpa using hshape
      by_cases heq : nick = s
      · subst heq
        refine ⟨_, _, quit_step_pm_hit hname husl hch rfl,
          quit_step_pm_hit (v := addMessage v "*" _) hname husl hch rfl,
          ?_, fun _ => ⟨rfl, rfl⟩, ?_, ?_⟩
        · intro h
          rcases h with h | ⟨_, h2⟩
          · rw [hname] at h; cases h
          · exact absurd hname h2
        · intro ul hul; cases hul
        · intro ul hul; cases hul
      · refine ⟨v, v, quit_step_pm_miss hname husl heq,
          quit_step_pm_miss hname husl heq, fun _ => ⟨rfl, rfl⟩, ?_, ?_, ?_⟩
        · intro h
          rw [hname] at h
          exact absurd (Option.some.inj h).symm heq
        · intro ul hul; cases hul
        · intro ul hul; cases hul
    | some ul =>
      have hch : isChannelName s = true := by
        rw [husl] at hshape; simpa using hshape
      have hne : nick ≠ s := by
        intro h; rw [h] at hnick; rw [hnick] at hch; cases hch
      have hndul : ul.Nodup := by rw [husl] at hnd; simpa using hnd
      by_cases hmem : nick ∈ ul
      · have hnm2 : nick ∉ ul.erase nick :=
          fun hmem2 => ((List.Nodup.mem_erase_iff hndul).mp hmem2).1 rfl
        refine ⟨_, _, quit_step_chan_hit hname husl hch hmem,
          quit_step_chan_miss (v := addMessage
            { v with userlist := some (ul.erase nick) } "*" _)
            hname rfl hne hnm2, ?_, ?_, ?_, ?_⟩
        · intro h
          rcases h with h | ⟨h2, _⟩
          · rw [hname] at h; cases h
          · cases h2
        · intro h
          rw [hname] at h
          exact absurd (Option.some.inj h).symm hne
        · intro ul0 hul0 _
          cases Option.some.inj hul0
          exact ⟨rfl, rfl⟩
        · intro ul0 hul0 hnmem
          cases Option.some.inj hul0
          exact absurd hmem hnmem
      · refine ⟨v, v, quit_step_chan_miss hname husl hne hmem,
          quit_step_chan_miss hname husl hne hmem,
          fun _ => ⟨rfl, rfl⟩, ?_, ?_, ?_⟩
        · intro h
          rw [hname] at h
          exact absurd (Option.some.inj h).symm hne
        · intro ul0 hul0 hmem0
          cases Option.some.inj hul0
          exact absurd hmem0 hmem
        · intro ul0 hul0 _
          cases Option.some.inj hul0
          exact ⟨rfl, rfl⟩

/-- C5: what two applications of user-quit(nick) actually do: every channel that
contained nick loses it on the first application with exactly one quit notice
and is untouched by the second (the membership guard makes it a silent no-op,
no error is raised or swallowed); the server entity is skipped; but every PM
entity named nick receives one quit notice on EACH application — the second
application is not a no-op for PM entities. -/
theorem C5_double_user_quit (w : IrcWidget) (nick : String)
    (r1 r2 : Option String)
    (hnick : isChannelName nick = false)
    (hwf : ∀ e ∈ w.channel_likes, viewOK e = true)
    (hnd : ∀ e ∈ w.channel_likes, (e.2.userlist.getD []).Nodup) :
    ∃ w1 w2, apply_event w (.user_quit nick r1) = some w1 ∧
      apply_event w1 (.user_quit nick r2) = some w2 ∧
      ∀ k v, lookupKey k w.channel_likes = some v →
        ((v.name = none ∨ (v.userlist = none ∧ v.name ≠ some nick)) →
          lookupKey k w1.channel_likes = some v ∧
          lookupKey k w2.channel_likes = some v) ∧
        (v.name = some nick →
          lookupKey k w1.channel_likes =
            some (addMessage v "*" (withReason (nick ++ " quit.") r1)) ∧
          lookupKey k w2.channel_likes =
            some (addMessage
              (addMessage v "*" (withReason (nick ++ " quit.") r1))
              "*" (withReason (nick ++ " quit.") r2))) ∧
        (∀ ul, v.userlist = some ul → nick ∈ ul →
          lookupKey k w1.channel_likes =
            some (addMessage { v with userlist := some (ul.erase nick) }
              "*" (withReason (nick ++ " quit.") r1)) ∧
          lookupKey k w2.channel_likes =
            some (addMessage { v with userlist := some (ul.erase nick) }
              "*" (withReason (nick ++ " quit.") r1))) ∧
        (∀ ul, v.userlist = some ul → nick ∉ ul →
          lookupKey k w1.channel_likes = some v ∧
          lookupKey k w2.channel_likes = some v) := by
  have hsucc1 : ∀ e ∈ w.channel_likes,
      ((quit_step nick r1) e.2).isSome = true := by
    intro e he
    obtain ⟨v1, v2, h1, _, _⟩ :=
      quit_step_twice nick r1 r2 e.1 e.2 (hwf e he) (hnd e he) hnick
    simp [h1]
  obtain ⟨l1, hl1⟩ := Option.isSome_iff_exists.mp
    (mapViewsM_isSome (f := quit_step nick r1) hsucc1)
  have happ1 : apply_event w (.user_quit nick r1) =
      some { w with channel_likes := l1 } := by
    simp [apply_event, hnick, hl1]
  have hsucc2 : ∀ e ∈ l1, ((quit_step nick r2) e.2).isSome = true := by
    intro e' he'
    obtain ⟨e, he, _, hsnd⟩ := mapViewsM_mem hl1 e' he'
    obtain ⟨v1, v2, h1, h2, _⟩ :=
      quit_step_twice nick r1 r2 e.1 e.2 (hwf e he) (hnd e he) hnick
    rw [h1] at hsnd
    cases Option.some.inj hsnd
    simp [h2]
  obtain ⟨l2, hl2⟩ := Option.isSome_iff_exists.mp
    (mapViewsM_isSome (f := quit_step nick r2) hsucc2)
  have happ2 : apply_event { w with channel_likes := l1 }
      (.user_quit nick r2) =
      some { w with channel_likes := l2 } := by
    simp [apply_event, hnick]
    exact hl2
  refine ⟨_, _, happ1, happ2, ?_⟩
  intro k v hv
  obtain ⟨v1, v2, h1, h2, hc1, hc2, hc3, hc4⟩ :=
    quit_step_twice nick r1 r2 k v (hwf (k, v) (lookupKey_mem hv))
      (hnd (k, v) (lookupKey_mem hv)) hnick
  have hlk1 : lookupKey k l1 = some v1 := by
    rw [mapViewsM_lookup hl1 k, hv, Option.some_bind, h1]
  have hlk2 : lookupKey k l2 = some v2 := by
    rw [mapViewsM_lookup hl2 k, hlk1, Option.some_bind, h2]
  refine ⟨?_, ?_, ?_, ?_⟩
  · intro h
    obtain ⟨e1, e2⟩ := hc1 h
    exact ⟨e1 ▸ hlk1, e2 ▸ hlk2⟩
  · intro h
    obtain ⟨e1, e2⟩ := hc2 h
    refine ⟨e1 ▸ hlk1, ?_⟩
    rw [e2, e1] at hlk2
    exact hlk2
  · intro ul hul hmem
    obtain ⟨e1, e2⟩ := hc3 ul hul hmem
    refine ⟨e1 ▸ hlk1, ?_⟩
    rw [e2, e1] at hlk2
    exact hlk2
  · intro ul hul hmem
    obtain ⟨e1, e2⟩ := hc4 ul hul hmem
    exact ⟨e1 ▸ hlk1, e2 ▸ hlk2⟩

/-- C5, failure part: on a directory holding a PM conversation with alice,
two user-quit(alice) events in a row append TWO quit notices to that PM
entity — the second application is not the claimed silent no-op. -/
theorem C5_counterexample :
    ((apply_event
      (⟨[(none, ⟨none, none, []⟩),
         (some "alice", ⟨some "alice", none, []⟩)],
        [none, some "alice"], some "alice"⟩ : IrcWidget)
      (.user_quit "alice" none)).bind
      (fun w1 => apply_event w1 (.user_quit "alice" none))).map
      (fun w2 => (lookupKey (some "alice") w2.channel_likes).map
        ChannelLikeView.messages)
      = some (some [("*", "alice quit."), ("*", "alice quit.")]) := by decide

/-- Witness for C5 at a concrete directory: server pane, channel with alice
and bob, and a PM with alice. -/
theorem C5_witness :
    (isChannelName "alice" = false) ∧
    (∀ e ∈ ([(none, ⟨none, none, []⟩),
       (some "#c", ⟨some "#c", some ["alice", "bob"], []⟩),
       (some "alice", ⟨some "alice", none, []⟩)] : List DictEntry),
      viewOK e = true) ∧
    (∀ e ∈ ([(none, ⟨none, none, []⟩),
       (some "#c", ⟨some "#c", some ["alice", "bob"], []⟩),
       (some "alice", ⟨some "alice", none, []⟩)] : List DictEntry),
      (e.2.userlist.getD []).Nodup) ∧
    (∃ w1 w2, apply_event
        (⟨[(none, ⟨none, none, []⟩),
           (some "#c", ⟨some "#c", some ["alice", "bob"], []⟩),
           (some "alice", ⟨some "alice", none, []⟩)],
          [none, some "#c", some "alice"], some "#c"⟩ : IrcWidget)
        (.user_quit "alice" none) = some w1 ∧
      apply_event w1 (.user_quit "alice" (some "bye")) = some w2 ∧
      ∀ k v, lookupKey k
          (⟨[(none, ⟨none, none, []⟩),
             (some "#c", ⟨some "#c", some ["alice", "bob"], []⟩),
             (some "alice", ⟨some "alice", none, []⟩)],
            [none, some "#c", some "alice"], some "#c"⟩ :
              IrcWidget).channel_likes = some v →
        ((v.name = none ∨ (v.userlist = none ∧ v.name ≠ some "alice")) →
          lookupKey k w1.channel_likes = some v ∧
          lookupKey k w2.channel_likes = some v) ∧
        (v.name = some "alice" →
          lookupKey k w1.channel_likes =
            some (addMessage v "*" (withReason ("alice" ++ " quit.") none)) ∧
          lookupKey k w2.channel_likes =
            some (addMessage
              (addMessage v "*" (withReason ("alice" ++ " quit.") none))
              "*" (withReason ("alice" ++ " quit.") (some "bye")))) ∧
        (∀ ul, v.userlist = some ul → "alice" ∈ ul →
          lookupKey k w1.channel_likes =
            some (addMessage { v with userlist := some (ul.erase "alice") }
              "*" (withReason ("alice" ++ " quit.") none)) ∧
          lookupKey k w2.channel_likes =
            some (addMessage { v with userlist := some (ul.erase "alice") }
              "*" (withReason ("alice" ++ " quit.") none))) ∧
        (∀ ul, v.userlist = some ul → "alice" ∉ ul →
          lookupKey k w1.channel_likes = some v ∧
          lookupKey k w2.channel_likes = some v)) :=
  ⟨rfl, by decide, by decide,
    C5_double_user_quit _ "alice" none (some "bye") rfl (by decide) (by decide)⟩

theorem oucn_server {old new : String} {v : ChannelLikeView}
    (h : v.name = none) : on_user_changed_nick v old new = some v := by
  simp [on_user_changed_nick, h]

theorem oucn_pm_notice {old new nm : String} {v : ChannelLikeView}
    (hn : v.name = some nm) (hul : v.userlist = none)
    (hch : isChannelName nm = false) (heq : nm = new) :
    on_user_changed_nick v old new =
      some (addMessage v "*" (old ++ " is now known as " ++ new ++ ".")) := by
  subst heq
  simp [on_user_changed_nick, hn, hul, hch]

theorem oucn_pm_skip {old new nm : String} {v : ChannelLikeView}
    (hn : v.name = some nm) (hul : v.userlist = none)
    (hch : isChannelName nm = false) (hne : nm ≠ new) :
    on_user_changed_nick v old new = some v := by
  simp [on_user_changed_nick, hn, hul, hch, hne]

theorem oucn_chan_hit {old new nm : String} {v : ChannelLikeView}
    {ul : List String} (hn : v.name = some nm) (hul : v.userlist = some ul)
    (hch : isChannelName nm = true) (hmem : old ∈ ul) :
    on_user_changed_nick v old new =
      some (addMessage
        { v with userlist := some (sortPlain (replaceFirst old new ul)) }
        "*" (old ++ " is now known as " ++ new ++ ".")) := by
  simp [on_user_changed_nick, hn, hul, hch, hmem, userlist_replace]

theorem oucn_chan_miss {old new nm : String} {v : ChannelLikeView}
    {ul : List String} (hn : v.name = some nm) (hul : v.userlist = some ul)
    (hch : isChannelName nm = true) (hmem : old ∉ ul) :
    on_user_changed_nick v old new = some v := by
  simp [on_user_changed_nick, hn, hul, hch, hmem]

theorem nick_fanout_step (old new : String) (k : Name) (v : ChannelLikeView)
    (hOK : viewOK (k, v) = true) :
    ∃ v', on_user_changed_nick v old new = some v' ∧
      nickFanoutSpec old new v v' := by
  cases k with
  | none =>
    simp only [viewOK, Bool.and_eq_true, beq_iff_eq, Option.isNone_iff_eq_none]
      at hOK
    obtain ⟨hname, husl⟩ := hOK
    refine ⟨v, oucn_server hname, fun _ => rfl, fun _ _ _ _ => rfl, ?_,
      fun _ _ _ => rfl, ?_⟩
    · simp [hname]
    · simp [husl]
  | some s =>
    simp only [viewOK, Bool.and_eq_true, beq_iff_eq] at hOK
    obtain ⟨hname, hshape⟩ := hOK
    cases husl : v.userlist with
    | none =>
      have hch : isChannelName s = false := by
        rw [husl] at hshape; simpa using hshape
      by_cases heq : s = new
      · refine ⟨_, oucn_pm_notice hname husl hch heq, ?_, ?_, ?_, ?_, ?_⟩
        · simp [hname]
        · intro nm hnm _ hne
          rw [hname] at hnm
          exact absurd ((Option.some.inj hnm).symm.trans heq) hne
        · intro _ _; rfl
        · simp [husl]
        · simp [husl]
      · refine ⟨v, oucn_pm_skip hname husl hch heq, fun _ => rfl,
          fun _ _ _ _ => rfl, ?_, fun _ _ _ => rfl, ?_⟩
        · intro h
          rw [hname] at h
          exact absurd (Option.some.inj h) heq
        · simp [husl]
    | some ul =>
      have hch : isChannelName s = true := by
        rw [husl] at hshape; simpa using hshape
      by_cases hmem : old ∈ ul
      · refine ⟨_, oucn_chan_hit hname husl hch hmem, ?_, ?_, ?_, ?_, ?_⟩
        · simp [hname]
        · simp [husl]
        · simp [husl]
        · intro ul0 hul0 hmem0
          rw [husl] at hul0
          cases Option.some.inj hul0
          exact absurd hmem hmem0
        · intro ul0 hul0 _
          rw [husl] at hul0
          cases Option.some.inj hul0
          exact ⟨rfl, rfl, _, rfl,
            (perm_sortPlain _).trans (replaceFirst_perm hmem),
            sorted_sortPlain _⟩
      · refine ⟨v, oucn_chan_miss hname husl hch hmem, fun _ => rfl, ?_, ?_,
          fun _ _ _ => rfl, ?_⟩
        · simp [husl]
        · simp [husl]
        · intro ul0 hul0 hmem0
          rw [husl] at hul0
          cases Option.some.inj hul0
          exact absurd hmem0 hmem

/-- C4: what a user-changed-nick(old,new) event actually does: when an entity
named old exists it is renamed to new (a pre-existing entity named new is
first removed by the collision path) and, being now named new, it receives
the rename notice; channels containing old get the in-place replacement and
the notice; channels without old and PM entities named neither old nor new
are untouched; but a PM entity already named new receives the rename notice
too, although it was never named old. -/
theorem C4_user_changed_nick (w : IrcWidget) (old new : String)
    (hkeys : w.keys.Nodup) (hperm : List.Perm w.selector w.keys)
    (hwf : ∀ e ∈ w.channel_likes, viewOK e = true)
    (holdn : isChannelName old = false) (hnewn : isChannelName new = false)
    (hne : old ≠ new) :
    ∃ w', apply_event w (.user_changed_nick old new) = some w' ∧
      ((lookupKey (some old) w.channel_likes = none →
        ∀ k v, lookupKey k w.channel_likes = some v →
          ∃ v', lookupKey k w'.channel_likes = some v' ∧
            nickFanoutSpec old new v v') ∧
       (∀ vOld, lookupKey (some old) w.channel_likes = some vOld →
         lookupKey (some old) w'.channel_likes = none ∧
         lookupKey (some new) w'.channel_likes =
           some (addMessage { vOld with name := some new } "*"
             (old ++ " is now known as " ++ new ++ ".")) ∧
         (∀ k v, k ≠ some old → k ≠ some new →
           lookupKey k w.channel_likes = some v →
           ∃ v', lookupKey k w'.channel_likes = some v' ∧
             nickFanoutSpec old new v v'))) := by
  cases hold : lookupKey (some old) w.channel_likes with
  | none =>
    have hsucc : ∀ e ∈ w.channel_likes,
        ((fun v => on_user_changed_nick v old new) e.2).isSome = true := by
      intro e he
      obtain ⟨v', hstep, _⟩ := nick_fanout_step old new e.1 e.2 (hwf e he)
      simp [hstep]
    obtain ⟨l', hl'⟩ := Option.isSome_iff_exists.mp
      (mapViewsM_isSome (f := fun v => on_user_changed_nick v old new) hsucc)
    have happ : apply_event w (.user_changed_nick old new) =
        some { w with channel_likes := l' } := by
      simp [apply_event, hold, hl']
    refine ⟨_, happ, ?_, ?_⟩
    · intro _ k v hv
      obtain ⟨v', hstep, hspec⟩ :=
        nick_fanout_step old new k v (hwf (k, v) (lookupKey_mem hv))
      have hlk : lookupKey k l' = some v' := by
        rw [mapViewsM_lookup hl' k, hv, Option.some_bind, hstep]
      exact ⟨v', hlk, hspec⟩
    · intro vOld h; cases h
  | some vOld =>
    obtain ⟨w1, hren, hlknew, hlkold, hlkother, hment, _⟩ :=
      rename_spec w old new vOld hkeys hperm hold hne
    have hOKold := hwf (some old, vOld) (lookupKey_mem hold)
    have hulOld : vOld.userlist = none := by
      simp only [viewOK, Bool.and_eq_true, beq_iff_eq] at hOKold
      obtain ⟨_, hshape⟩ := hOKold
      cases hv : vOld.userlist with
      | none => rfl
      | some ul =>
        rw [hv] at hshape
        rw [holdn] at hshape
        simp at hshape
    have hwf1 : ∀ e ∈ w1.channel_likes, viewOK e = true := by
      intro e he
      rcases hment e he with h1 | h1
      · exact hwf e h1
      · rw [h1]
        simp [viewOK, hnewn, hulOld]
    have hsucc : ∀ e ∈ w1.channel_likes,
        ((fun v => on_user_changed_nick v old new) e.2).isSome = true := by
      intro e he
      obtain ⟨v', hstep, _⟩ := nick_fanout_step old new e.1 e.2 (hwf1 e he)
      simp [hstep]
    obtain ⟨l', hl'⟩ := Option.isSome_iff_exists.mp
      (mapViewsM_isSome (f := fun v => on_user_changed_nick v old new) hsucc)
    have happ : apply_event w (.user_changed_nick old new) =
        some { w1 with channel_likes := l' } := by
      simp [apply_event, hold, hren, hl']
    refine ⟨_, happ, ?_, ?_⟩
    · intro h; cases h
    · intro vOld2 h
      cases Option.some.inj h
      refine ⟨?_, ?_, ?_⟩
      · show lookupKey (some old) l' = none
        rw [mapViewsM_lookup hl' (some old), hlkold]
        rfl
      · show lookupKey (some new) l' = _
        rw [mapViewsM_lookup hl' (some new), hlknew, Option.some_bind]
        exact oucn_pm_notice rfl hulOld hnewn rfl
      · intro k v hko hkn hv
        obtain ⟨v', hstep, hspec⟩ :=
          nick_fanout_step old new k v (hwf (k, v) (lookupKey_mem hv))
        have hlk : lookupKey k l' = some v' := by
          rw [mapViewsM_lookup hl' k, hlkother k hko hkn, hv,
            Option.some_bind, hstep]
        exact ⟨v', hlk, hspec⟩

/-- C4, failure part: a directory holds only the server pane and a PM entity
named bob; alice (not present anywhere) renames to bob. The claim says a PM
entity not named old is unaffected and receives no notice, yet the code
appends the rename notice to the PM named bob, because the post-rename check
compares against the NEW nick. -/
theorem C4_counterexample :
    (apply_event
      (⟨[(none, ⟨none, none, []⟩),
         (some "bob", ⟨some "bob", none, []⟩)],
        [none, some "bob"], some "bob"⟩ : IrcWidget)
      (.user_changed_nick "alice" "bob")).map
      (fun w' => (lookupKey (some "bob") w'.channel_likes).map
        ChannelLikeView.messages)
      = some (some [("*", "alice is now known as bob.")]) := by decide

/-- Witness for C4 at a concrete directory: server pane, a PM with alice
holding one message, a channel with alice and bob, and a PM with carol. -/
theorem C4_witness :
    ((⟨[(none, ⟨none, none, []⟩),
        (some "alice", ⟨some "alice", none, [("bob", "hi")]⟩),
        (some "#c", ⟨some "#c", some ["alice", "bob"], []⟩),
        (some "carol", ⟨some "carol", none, []⟩)],
       [none, some "alice", some "#c", some "carol"],
       some "#c"⟩ : IrcWidget).keys.Nodup) ∧
    (∀ e ∈ ([(none, ⟨none, none, []⟩),
        (some "alice", ⟨some "alice", none, [("bob", "hi")]⟩),
        (some "#c", ⟨some "#c", some ["alice", "bob"], []⟩),
        (some "carol", ⟨some "carol", none, []⟩)] : List DictEntry),
      viewOK e = true) ∧
    (∃ w', apply_event
        (⟨[(none, ⟨none, none, []⟩),
           (some "alice", ⟨some "alice", none, [("bob", "hi")]⟩),
           (some "#c", ⟨some "#c", some ["alice", "bob"], []⟩),
           (some "carol", ⟨some "carol", none, []⟩)],
          [none, some "alice", some "#c", some "carol"],
          some "#c"⟩ : IrcWidget)
        (.user_changed_nick "alice" "zed") = some w' ∧
      ((lookupKey (some "alice")
          (⟨[(none, ⟨none, none, []⟩),
             (some "alice", ⟨some "alice", none, [("bob", "hi")]⟩),
             (some "#c", ⟨some "#c", some ["alice", "bob"], []⟩),
             (some "carol", ⟨some "carol", none, []⟩)],
            [none, some "alice", some "#c", some "carol"],
            some "#c"⟩ : IrcWidget).channel_likes = none →
        ∀ k v, lookupKey k
            (⟨[(none, ⟨none, none, []⟩),
               (some "alice", ⟨some "alice", none, [("bob", "hi")]⟩),
               (some "#c", ⟨some "#c", some ["alice", "bob"], []⟩),
               (some "carol", ⟨some "carol", none, []⟩)],
              [none, some "alice", some "#c", some "carol"],
              some "#c"⟩ : IrcWidget).channel_likes = some v →
          ∃ v', lookupKey k w'.channel_likes = some v' ∧
            nickFanoutSpec "alice" "zed" v v') ∧
       (∀ vOld, lookupKey (some "alice")
           (⟨[(none, ⟨none, none, []⟩),
              (some "alice", ⟨some "alice", none, [("bob", "hi")]⟩),
              (some "#c", ⟨some "#c", some ["alice", "bob"], []⟩),
              (some "carol", ⟨some "carol", none, []⟩)],
             [none, some "alice", some "#c", some "carol"],
             some "#c"⟩ : IrcWidget).channel_likes = some vOld →
         lookupKey (some "alice") w'.channel_likes = none ∧
         lookupKey (some "zed") w'.channel_likes =
           some (addMessage { vOld with name := some "zed" } "*"
             ("alice" ++ " is now known as " ++ "zed" ++ ".")) ∧
         (∀ k v, k ≠ some "alice" → k ≠ some "zed" →
           lookupKey k
             (⟨[(none, ⟨none, none, []⟩),
                (some "alice", ⟨some "alice", none, [("bob", "hi")]⟩),
                (some "#c", ⟨some "#c", some ["alice", "bob"], []⟩),
                (some "carol", ⟨some "carol", none, []⟩)],
               [none, some "alice", some "#c", some "carol"],
               some "#c"⟩ : IrcWidget).channel_likes = some v →
           ∃ v', lookupKey k w'.channel_likes = some v' ∧
             nickFanoutSpec "alice" "zed" v v')))) :=
  ⟨by decide, by decide,
    C4_user_changed_nick _ "alice" "zed" (by decide) (by decide) (by decide)
      rfl rfl (by decide)⟩

/-- C6: removing a (non-server) entity keeps the directory invariants: the
remove of the server name is refused outright, the remove of a present name
succeeds, the server entity is still present (so the directory is never
empty), and the active reference still points at a live entity different
from the removed one — when the removed entity was active, the selection was
first moved to the neighbouring row. -/
theorem C6_remove_keeps_invariants (w : IrcWidget) (nm : String)
    (hkeys : w.keys.Nodup) (hperm : List.Perm w.selector w.keys)
    (hcur : w.current ∈ w.keys) (hserver : none ∈ w.keys)
    (hmem : some nm ∈ w.keys) :
    remove_channel_like w none = none ∧
    ∃ w', remove_channel_like w (some nm) = some w' ∧
      none ∈ w'.keys ∧ w'.channel_likes ≠ [] ∧
      w'.current ∈ w'.keys ∧ w'.current ≠ some nm := by
  refine ⟨rfl, ?_⟩
  obtain ⟨w', hrem, hchan, hkeysEq, hperm', hlk, hlknone, hcurne, hcuract⟩ :=
    remove_spec w nm hkeys hperm hmem
  have hserver' : none ∈ w'.keys := by
    rw [hkeysEq]
    exact mem_eraseName_of_ne (by simp) hserver
  refine ⟨w', hrem, hserver', ?_, ?_, ?_⟩
  · intro hnil
    have hk : w'.keys = [] := by
      show w'.channel_likes.map Prod.fst = []
      rw [hnil]
      simp
    rw [hk] at hserver'
    simp at hserver'
  · by_cases hc : w.current = some nm
    · obtain ⟨h1, h2⟩ := hcuract hc hserver
      rw [hkeysEq]
      exact mem_eraseName_of_ne h2 h1
    · rw [hcurne hc, hkeysEq]
      exact mem_eraseName_of_ne hc hcur
  · by_cases hc : w.current = some nm
    · exact (hcuract hc hserver).2
    · rw [hcurne hc]; exact hc

/-- Witness for C6 at a concrete directory: server pane plus channels and
the active channel removed. -/
theorem C6_witness :
    ((⟨[(none, ⟨none, none, []⟩),
        (some "#a", ⟨some "#a", some [], []⟩),
        (some "#b", ⟨some "#b", some [], []⟩)],
       [none, some "#a", some "#b"], some "#a"⟩ : IrcWidget).keys.Nodup) ∧
    (remove_channel_like
        (⟨[(none, ⟨none, none, []⟩),
           (some "#a", ⟨some "#a", some [], []⟩),
           (some "#b", ⟨some "#b", some [], []⟩)],
          [none, some "#a", some "#b"], some "#a"⟩ : IrcWidget) none = none ∧
      ∃ w', remove_channel_like
          (⟨[(none, ⟨none, none, []⟩),
             (some "#a", ⟨some "#a", some [], []⟩),
             (some "#b", ⟨some "#b", some [], []⟩)],
            [none, some "#a", some "#b"], some "#a"⟩ : IrcWidget)
          (some "#a") = some w' ∧
        none ∈ w'.keys ∧ w'.channel_likes ≠ [] ∧
        w'.current ∈ w'.keys ∧ w'.current ≠ some "#a") :=
  ⟨by decide,
    C6_remove_keeps_invariants _ "#a" (by decide) (by decide) (by decide)
      (by decide) (by decide)⟩

/-- C7: renaming a PM entity — also through the collision path that first
removes an existing entity at the new name — keeps the renamed entity's
whole message history unchanged, and when the renamed entity was the active
one it is still the active one afterwards, at its new name. -/
theorem C7_rename_preserves_history_and_selection (w : IrcWidget)
    (old new : String) (vOld : ChannelLikeView)
    (hkeys : w.keys.Nodup) (hperm : List.Perm w.selector w.keys)
    (hold : lookupKey (some old) w.channel_likes = some vOld)
    (hne : old ≠ new) :
    ∃ w', rename_channel_like w old new = some w' ∧
      (∃ v', lookupKey (some new) w'.channel_likes = some v' ∧
        v'.messages = vOld.messages) ∧
      (w.current = some old → w'.current = some new) := by
  obtain ⟨w', hren, hnew, _, _, _, hcur⟩ :=
    rename_spec w old new vOld hkeys hperm hold hne
  exact ⟨w', hren, ⟨_, hnew, rfl⟩, hcur⟩

/-- Witness for C7 at a concrete directory exercising the collision path:
the active PM with alice (one message of history) is renamed to zed while a
distinct entity named zed already exists. -/
theorem C7_witness :
    (lookupKey (some "alice")
      (⟨[(none, ⟨none, none, []⟩),
         (some "alice", ⟨some "alice", none, [("alice", "hello")]⟩),
         (some "zed", ⟨some "zed", none, []⟩)],
        [none, some "alice", some "zed"], some "alice"⟩ :
          IrcWidget).channel_likes =
      some ⟨some "alice", none, [("alice", "hello")]⟩) ∧
    (∃ w', rename_channel_like
        (⟨[(none, ⟨none, none, []⟩),
           (some "alice", ⟨some "alice", none, [("alice", "hello")]⟩),
           (some "zed", ⟨some "zed", none, []⟩)],
          [none, some "alice", some "zed"], some "alice"⟩ : IrcWidget)
        "alice" "zed" = some w' ∧
      (∃ v', lookupKey (some "zed") w'.channel_likes = some v' ∧
        v'.messages =
          (⟨some "alice", none, [("alice", "hello")]⟩ :
            ChannelLikeView).messages) ∧
      ((⟨[(none, ⟨none, none, []⟩),
          (some "alice", ⟨some "alice", none, [("alice", "hello")]⟩),
          (some "zed", ⟨some "zed", none, []⟩)],
         [none, some "alice", some "zed"], some "alice"⟩ :
           IrcWidget).current = some "alice" → w'.current = some "zed")) :=
  ⟨by decide,
    C7_rename_preserves_history_and_selection _ "alice" "zed" _
      (by decide) (by decide) (by decide) (by decide)⟩

/-- C10: removing an entity that is not the active one leaves the active
reference exactly where it was, and the state of every other entity is
untouched (all other lookups are unchanged; only the removed name is gone). -/
theorem C10_remove_nonactive_frame (w : IrcWidget) (nm : String)
    (hkeys : w.keys.Nodup) (hperm : List.Perm w.selector w.keys)
    (hmem : some nm ∈ w.keys) (hne : w.current ≠ some nm) :
    ∃ w', remove_channel_like w (some nm) = some w' ∧
      w'.current = w.current ∧
      (∀ k, k ≠ some nm →
        lookupKey k w'.channel_likes = lookupKey k w.channel_likes) ∧
      lookupKey (some nm) w'.channel_likes = none := by
  obtain ⟨w', hrem, _, _, _, hlk, hlknone, hcurne, _⟩ :=
    remove_spec w nm hkeys hperm hmem
  exact ⟨w', hrem, hcurne hne, hlk, hlknone⟩

/-- Witness for C10 at a concrete directory: the non-active channel is
removed while another channel holds the selection. -/
theorem C10_witness :
    ((⟨[(none, ⟨none, none, []⟩),
        (some "#a", ⟨some "#a", some [], []⟩),
        (some "#b", ⟨some "#b", some [], []⟩)],
       [none, some "#a", some "#b"], some "#b"⟩ : IrcWidget).current ≠
      some "#a") ∧
    (∃ w', remove_channel_like
        (⟨[(none, ⟨none, none, []⟩),
           (some "#a", ⟨some "#a", some [], []⟩),
           (some "#b", ⟨some "#b", some [], []⟩)],
          [none, some "#a", some "#b"], some "#b"⟩ : IrcWidget)
        (some "#a") = some w' ∧
      w'.current = (⟨[(none, ⟨none, none, []⟩),
           (some "#a", ⟨some "#a", some [], []⟩),
           (some "#b", ⟨some "#b", some [], []⟩)],
          [none, some "#a", some "#b"], some "#b"⟩ : IrcWidget).current ∧
      (∀ k, k ≠ some "#a" →
        lookupKey k w'.channel_likes = lookupKey k
          (⟨[(none, ⟨none, none, []⟩),
             (some "#a", ⟨some "#a", some [], []⟩),
             (some "#b", ⟨some "#b", some [], []⟩)],
            [none, some "#a", some "#b"], some "#b"⟩ :
              IrcWidget).channel_likes) ∧
      lookupKey (some "#a") w'.channel_likes = none) :=
  ⟨by decide,
    C10_remove_nonactive_frame _ "#a" (by decide) (by decide) (by decide)
      (by decide)⟩

/-- C1: the nick-replacement path breaks the case-insensitive sort invariant.
The channel member list [alice, Zed] is casefold-sorted; _userlist_replace of
alice by bob re-sorts with the plain code-point comparator of list.sort()
(capital letters before lowercase), producing [Zed, bob], which is NOT in
case-insensitive order — the casefold order would be [bob, Zed]. Creation
and on_join do sort with key=str.casefold; the replacement path alone drops
the key. -/
theorem C1_replace_breaks_casefold_order :
    List.Sorted casefoldLe ["alice", "Zed"] ∧
    (userlist_replace
      (⟨some "#c", some ["alice", "Zed"], []⟩ : ChannelLikeView)
      "alice" "bob").map ChannelLikeView.userlist =
      some (some ["Zed", "bob"]) ∧
    ¬ List.Sorted casefoldLe ["Zed", "bob"] ∧
    sortCasefold ["Zed", "bob"] = ["bob", "Zed"] := by decide

/-- C2 corrected: a user-parted event whose nick is not in the channel's
member list raises an uncaught ValueError from userlist.index: the event's
channel is left unchanged, but the drain loop is aborted — the events still
queued after the failing one are never applied and handle_events is not
re-armed. The spec's claimed log-and-continue recovery does not exist in the
code. -/
theorem C2_part_absent_nick_aborts_drain (w : IrcWidget)
    (v : ChannelLikeView) (nick ch nm : String) (ul : List String)
    (r : Option String) (rest : List IrcEvent)
    (hv : lookupKey (some ch) w.channel_likes = some v)
    (hname : v.name = some nm) (hchn : isChannelName nm = true)
    (hulsome : v.userlist = some ul) (hnm : nick ∉ ul) :
    handle_events w (.user_parted nick ch r :: rest) = .errored rest ∧
    rearms (handle_events w (.user_parted nick ch r :: rest)) = false := by
  have hpart : on_part v nick r = none := by
    simp [on_part, hname, hulsome, hchn, hnm]
  have happ : apply_event w (.user_parted nick ch r) = none := by
    simp [apply_event, hv, hpart]
  have hrun : handle_events w (.user_parted nick ch r :: rest) =
      .errored rest := by
    simp [handle_events, happ]
  exact ⟨hrun, by rw [hrun]; rfl⟩

/-- C2, failure part: with channel #c holding only bob, a user-parted(alice)
event aborts the drain with the following user-joined(carol) event still
unapplied, contradicting the claim that the reconciler proceeds to the next
queued event. -/
theorem C2_counterexample :
    handle_events
      (⟨[(none, ⟨none, none, []⟩),
         (some "#c", ⟨some "#c", some ["bob"], []⟩)],
        [none, some "#c"], some "#c"⟩ : IrcWidget)
      [.user_parted "alice" "#c" none, .user_joined "carol" "#c"]
      = .errored [.user_joined "carol" "#c"] ∧
    rearms (handle_events
      (⟨[(none, ⟨none, none, []⟩),
         (some "#c", ⟨some "#c", some ["bob"], []⟩)],
        [none, some "#c"], some "#c"⟩ : IrcWidget)
      [.user_parted "alice" "#c" none, .user_joined "carol" "#c"]) =
      false := by decide

/-- Witness for C2 at the same concrete directory. -/
theorem C2_witness :
    (lookupKey (some "#c")
      (⟨[(none, ⟨none, none, []⟩),
         (some "#c", ⟨some "#c", some ["bob"], []⟩)],
        [none, some "#c"], some "#c"⟩ : IrcWidget).channel_likes =
      some ⟨some "#c", some ["bob"], []⟩) ∧
    ("alice" ∉ (["bob"] : List String)) ∧
    (handle_events
      (⟨[(none, ⟨none, none, []⟩),
         (some "#c", ⟨some "#c", some ["bob"], []⟩)],
        [none, some "#c"], some "#c"⟩ : IrcWidget)
      (.user_parted "alice" "#c" none :: [.user_joined "carol" "#c"]) =
      .errored [.user_joined "carol" "#c"] ∧
    rearms (handle_events
      (⟨[(none, ⟨none, none, []⟩),
         (some "#c", ⟨some "#c", some ["bob"], []⟩)],
        [none, some "#c"], some "#c"⟩ : IrcWidget)
      (.user_parted "alice" "#c" none :: [.user_joined "carol" "#c"])) =
      false) :=
  ⟨by decide, by decide,
    C2_part_absent_nick_aborts_drain _
      (⟨some "#c", some ["bob"], []⟩ : ChannelLikeView)
      "alice" "#c" "#c" ["bob"] none [.user_joined "carol" "#c"]
      (by decide) rfl rfl rfl (by decide)⟩

theorem C3_aux (nm : String) (hnm : isChannelName nm = true) :
    ∀ (evs : List ChanEvent) (v : ChannelLikeView) (ul cur : List String),
      v.name = some nm → v.userlist = some ul →
      List.Sorted casefoldLe ul → ul.Nodup → List.Perm ul cur →
      chanWF cur evs →
      ∃ v' ul', applyChanEvents v evs = some v' ∧ v'.userlist = some ul' ∧
        List.Sorted casefoldLe ul' ∧ ul'.Nodup ∧
        List.Perm ul' (specMembers cur evs)
  | [], v, ul, cur, _, hul, hs, hnd, hp, _ => ⟨v, ul, rfl, hul, hs, hnd, hp⟩
  | .join n :: es, v, ul, cur, hname, hul, hs, hnd, hp, hwf => by
    obtain ⟨hnotin, hwf'⟩ := hwf
    have hjoin : on_join v n = some (addMessage
        { v with userlist := some (sortCasefold (ul ++ [n])) }
        "*" (n ++ " joined " ++ nm ++ ".")) := by
      simp [on_join, hname, hul, hnm]
    have hnotin_ul : n ∉ ul := fun hmem => hnotin (hp.mem_iff.mp hmem)
    have hnd' : (sortCasefold (ul ++ [n])).Nodup := by
      rw [List.Perm.nodup_iff (perm_sortCasefold _)]
      rw [List.nodup_append]
      exact ⟨hnd, List.nodup_singleton n,
        fun a ha hb => by simp at hb; exact hnotin_ul (hb ▸ ha)⟩
    have hperm' : List.Perm (sortCasefold (ul ++ [n])) (cur ++ [n]) :=
      (perm_sortCasefold _).trans (hp.append_right [n])
    obtain ⟨v', ul', heq, h1, h2, h3, h4⟩ :=
      C3_aux nm hnm es (addMessage
        { v with userlist := some (sortCasefold (ul ++ [n])) }
        "*" (n ++ " joined " ++ nm ++ "."))
        (sortCasefold (ul ++ [n])) (cur ++ [n]) hname rfl
        (sorted_sortCasefold _) hnd' hperm' hwf'
    refine ⟨v', ul', ?_, h1, h2, h3, h4⟩
    show (applyChanEvent v (.join n)).bind _ = some v'
    rw [show applyChanEvent v (.join n) = on_join v n from rfl, hjoin,
      Option.some_bind]
    exact heq
  | .part n r :: es, v, ul, cur, hname, hul, hs, hnd, hp, hwf => by
    obtain ⟨hmem_cur, hwf'⟩ := hwf
    have hmem : n ∈ ul := hp.mem_iff.mpr hmem_cur
    have hpartv : on_part v n r = some (addMessage
        { v with userlist := some (ul.erase n) }
        "*" (withReason (n ++ " left " ++ nm ++ ".") r)) := by
      simp [on_part, hname, hul, hnm, hmem]
    obtain ⟨v', ul', heq, h1, h2, h3, h4⟩ :=
      C3_aux nm hnm es (addMessage
        { v with userlist := some (ul.erase n) }
        "*" (withReason (n ++ " left " ++ nm ++ ".") r))
        (ul.erase n) (cur.erase n) hname rfl
        (sorted_erase hs) (hnd.erase n) (hp.erase n) hwf'
    refine ⟨v', ul', ?_, h1, h2, h3, h4⟩
    show (applyChanEvent v (.part n r)).bind _ = some v'
    rw [show applyChanEvent v (.part n r) = on_part v n r from rfl, hpartv,
      Option.some_bind]
    exact heq

/-- C3 corrected: for join/part sequences that are well formed — every join
brings a nick that is not currently a member and every part removes one that
is, as the IRC protocol guarantees — the member list of a channel created
with duplicate-free initial members stays casefold-sorted, duplicate-free,
and is a permutation of the set-theoretic join/part history. (Without the
well-formedness hypothesis the claim is false: a repeated join duplicates
the nick, and a part of an absent nick raises.) -/
theorem C3_join_part_history (nm : String) (users : List String)
    (evs : List ChanEvent) (hnm : isChannelName nm = true)
    (hnd : users.Nodup) (hwf : chanWF users evs) :
    ∃ v' ul',
      applyChanEvents (ChannelLikeView.make (some nm) (some users)) evs
        = some v' ∧
      v'.userlist = some ul' ∧ List.Sorted casefoldLe ul' ∧ ul'.Nodup ∧
      List.Perm ul' (specMembers users evs) :=
  C3_aux nm hnm evs (ChannelLikeView.make (some nm) (some users))
    (sortCasefold users) users rfl rfl (sorted_sortCasefold users)
    ((List.Perm.nodup_iff (perm_sortCasefold users)).mpr hnd)
    (perm_sortCasefold users) hwf

/-- C3, failure part: two user-joined(alice) events on a fresh empty channel
leave the member list [alice, alice] — a duplicate, not the set-theoretic
history {alice}. -/
theorem C3_counterexample :
    (applyChanEvents (ChannelLikeView.make (some "#c") (some []))
      [.join "alice", .join "alice"]).map ChannelLikeView.userlist
      = some (some ["alice", "alice"]) ∧
    ¬ (["alice", "alice"] : List String).Nodup := by decide

/-- Witness for C3 at a concrete channel and event sequence. -/
theorem C3_witness :
    (["bob"] : List String).Nodup ∧
    chanWF ["bob"] [.join "alice", .part "bob" none] ∧
    (∃ v' ul',
      applyChanEvents (ChannelLikeView.make (some "#c") (some ["bob"]))
        [.join "alice", .part "bob" none] = some v' ∧
      v'.userlist = some ul' ∧ List.Sorted casefoldLe ul' ∧ ul'.Nodup ∧
      List.Perm ul'
        (specMembers ["bob"] [.join "alice", .part "bob" none])) :=
  ⟨by decide, by simp [chanWF],
    C3_join_part_history "#c" ["bob"] [.join "alice", .part "bob" none]
      rfl (by decide) (by simp [chanWF])⟩

/-- C8: once the drain reaches a self-quit event, nothing queued after it is
ever applied — the outcome carries the state produced by the prefix alone,
with the suffix returned untouched — and the loop is not re-armed: the
trailing self.after call is never reached. -/
theorem C8_self_quit_stops_drain (w w' : IrcWidget)
    (evs1 evs2 : List IrcEvent)
    (h : handle_events w evs1 = .finished w') :
    handle_events w (evs1 ++ .self_quit :: evs2) = .quitted w' evs2 ∧
    rearms (handle_events w (evs1 ++ .self_quit :: evs2)) = false := by
  suffices hh : handle_events w (evs1 ++ .self_quit :: evs2) =
      .quitted w' evs2 by
    exact ⟨hh, by rw [hh]; rfl⟩
  have hcons : ∀ (w : IrcWidget) (e : IrcEvent) (rest : List IrcEvent),
      e ≠ .self_quit →
      handle_events w (e :: rest) =
        (match apply_event w e with
         | none => DrainOutcome.errored rest
         | some w1 => handle_events w1 rest) := by
    intro w e rest he
    simp [handle_events, he]
  induction evs1 generalizing w with
  | nil =>
    have h2 : w = w' := by
      simpa [handle_events] using h
    subst h2
    simp [handle_events]
  | cons e es ih =>
    by_cases he : e = .self_quit
    · rw [he] at h
      simp [handle_events] at h
    · rw [List.cons_append, hcons w e _ he]
      rw [hcons w e es he] at h
      cases ha : apply_event w e with
      | none =>
        rw [ha] at h
        exact absurd h (by simp)
      | some w1 =>
        rw [ha] at h
        exact ih w1 h

/-- Witness for C8: the prefix joins #c, then self-quit; a queued
user-joined event after the self-quit is never applied. -/
theorem C8_witness :
    (handle_events
      (⟨[(none, ⟨none, none, []⟩)], [none], none⟩ : IrcWidget)
      [.self_joined "#c" ["bob"]] =
      .finished (⟨[(none, ⟨none, none, []⟩),
                   (some "#c", ⟨some "#c", some ["bob"], []⟩)],
                  [none, some "#c"], some "#c"⟩ : IrcWidget)) ∧
    (handle_events
      (⟨[(none, ⟨none, none, []⟩)], [none], none⟩ : IrcWidget)
      ([.self_joined "#c" ["bob"]] ++
        .self_quit :: [.user_joined "carol" "#c"]) =
      .quitted (⟨[(none, ⟨none, none, []⟩),
                  (some "#c", ⟨some "#c", some ["bob"], []⟩)],
                 [none, some "#c"], some "#c"⟩ : IrcWidget)
        [.user_joined "carol" "#c"] ∧
    rearms (handle_events
      (⟨[(none, ⟨none, none, []⟩)], [none], none⟩ : IrcWidget)
      ([.self_joined "#c" ["bob"]] ++
        .self_quit :: [.user_joined "carol" "#c"])) = false) :=
  ⟨by decide,
    C8_self_quit_stops_drain _ _ [.self_joined "#c" ["bob"]]
      [.user_joined "carol" "#c"] (by decide)⟩

end Porcupine
